import Mathlib

/-!
Verification development for the ReactorJS (Clyra) UI runtime.

This file gives a shallow embedding, in Lean, of the core of the
repository: the virtual-DOM descriptor constructor (core/vdom.js), the
DOM reconciler (core/renderer.js), the component base class and its
update scheduler (core/component.js), and the hook dispatcher
(core/hooks.js).  JavaScript values are modelled by an explicit value
type on which strict equality (the === operator) is plain equality;
JavaScript objects are association lists in key-insertion order, which
matches the iteration order of Object.keys for the string-keyed objects
the source manipulates.  The single-threaded microtask queue used by
Promise.resolve().then(...) is modelled by an explicit task queue; host
(DOM) mutations are modelled as an emitted trace of adapter calls; the
DOM itself is modelled by the part of it the algorithms read, namely the
tree of node identities (childNodes).  Recursive tree algorithms are
written fuel-indexed so that every definition is executable and reduces
by the kernel; returning none means the JavaScript code threw or the
fuel was insufficient (theorems always supply sufficient fuel).
-/

/-- JavaScript primitive values (including function and object
references, identified by a numeric identity so that === is equality). -/
inductive Prim
  | undef
  | jnull
  | str (s : String)
  | num (n : Int)
  | bool (b : Bool)
  | fn (id : Nat)
  | obj (id : Nat)
deriving DecidableEq, Repr

/-- A JavaScript value as stored in a property bag: either a primitive
(or reference) or an array of primitives (dependency arrays and the like;
the source never nests arrays inside property values). -/
inductive JsVal
  | prim (p : Prim)
  | arr (elems : List Prim)
deriving DecidableEq, Repr

/-- A JavaScript object: an association list in key-insertion order.
Real JS objects have unique keys; all objects built here do. -/
abbrev Obj := List (String × JsVal)

/-- Property read; a missing property reads as undefined in JS. -/
def objGet (o : Obj) (k : String) : JsVal :=
  match o.find? (fun kv => kv.1 = k) with
  | some kv => kv.2
  | none => JsVal.prim Prim.undef

/-- The JS "k in o" test. -/
def objHas (o : Obj) (k : String) : Bool :=
  (o.find? (fun kv => kv.1 = k)).isSome

/-- Property assignment: overwrite in place, or append a new key. -/
def objSet (o : Obj) (k : String) (v : JsVal) : Obj :=
  if objHas o k then
    o.map (fun kv => if kv.1 = k then (k, v) else kv)
  else o ++ [(k, v)]

/-- The JS delete operator on a property (objects have unique keys, so
removing every binding of the key is removing the one binding). -/
def objDelete (o : Obj) (k : String) : Obj :=
  o.filter (fun kv => kv.1 ≠ k)

/-- String(value), the JS string conversion used by createTextElement. -/
def jsString (p : Prim) : String :=
  match p with
  | .undef => "undefined"
  | .jnull => "null"
  | .str s => s
  | .num n => toString n
  | .bool b => if b then "true" else "false"
  | .fn _ => "function"
  | .obj _ => "[object Object]"

/-- The JS loose test "x != null" (false exactly for null and undefined). -/
def jsNonNull (p : Prim) : Bool :=
  match p with
  | .undef => false
  | .jnull => false
  | _ => true

/-- A virtual-DOM node as built by the VNode class of core/vdom.js:
type tag, property bag, key (undefined when absent) and children. -/
inductive VNode
  | mk (vtype : String) (props : Obj) (key : JsVal) (children : List VNode)

/-- Type tag of a VNode. -/
def VNode.vtype : VNode → String
  | .mk t _ _ _ => t

/-- Property bag of a VNode. -/
def VNode.props : VNode → Obj
  | .mk _ p _ _ => p

/-- Key of a VNode (undefined when none was given). -/
def VNode.key : VNode → JsVal
  | .mk _ _ k _ => k

/-- Children of a VNode. -/
def VNode.children : VNode → List VNode
  | .mk _ _ _ c => c

/-- createTextElement from core/vdom.js: a TEXT_ELEMENT VNode whose
nodeValue prop is the String(...) conversion of the input. -/
def createTextElement (p : Prim) : VNode :=
  VNode.mk "TEXT_ELEMENT" [("nodeValue", JsVal.prim (Prim.str (jsString p)))]
    (JsVal.prim Prim.undef) []

/-- A child argument to createElement, as JavaScript sees it: an already
constructed VNode, a primitive value, or a (possibly nested) array of
further children. -/
inductive CEChild
  | cnode (v : VNode)
  | cprim (p : Prim)
  | clist (cs : List CEChild)

/-- The one-level flattening performed by Array.prototype.flat() with
its default depth of 1. -/
def flattenOne (cs : List CEChild) : List CEChild :=
  cs.flatMap (fun c => match c with
    | .clist l => l
    | c => [c])

/-- The map step of createElement: a string, number or boolean child is
wrapped by createTextElement; every other child is passed through. -/
def wrapChild (c : CEChild) : CEChild :=
  match c with
  | .cprim (.str s) => .cnode (createTextElement (.str s))
  | .cprim (.num n) => .cnode (createTextElement (.num n))
  | .cprim (.bool b) => .cnode (createTextElement (.bool b))
  | c => c

/-- The filter step of createElement: the JS test child != null, which
drops null and undefined children and keeps everything else. -/
def childNonNull (c : CEChild) : Bool :=
  match c with
  | .cprim p => jsNonNull p
  | _ => true

/-- Result of a call to createElement.  The props field is the property
object after the call; since the source mutates the caller's object in
place (delete props?.key) and then stores that same object into the
VNode, this single field is simultaneously the constructed node's
property bag and the state of the caller's props argument after the
call returns. -/
structure CEResult where
  vtype : String
  props : Obj
  key : JsVal
  children : List CEChild

/-- createElement from core/vdom.js: reads props.key, deletes the key
property from the props object in place, flattens the children one
level, wraps primitive children into text elements, and drops null and
undefined children. -/
def createElement (t : String) (props : Obj) (children : List CEChild) : CEResult :=
  let key := objGet props "key"
  let props := objDelete props "key"
  let mapped := (flattenOne children).map wrapChild
  { vtype := t
    props := props
    key := key
    children := mapped.filter childNonNull }

/-- Truth of a result child being a fully resolved descriptor (a VNode,
as the renderer expects), rather than a leftover raw array or value. -/
def childResolved (c : CEChild) : Bool :=
  match c with
  | .cnode _ => true
  | _ => false

/-- Leaves the specification's child normalization is defined on: a
descriptor, a primitive of string/number/boolean kind, or null or
undefined. -/
def okLeaf (c : CEChild) : Bool :=
  match c with
  | .cnode _ => true
  | .cprim (.str _) => true
  | .cprim (.num _) => true
  | .cprim (.bool _) => true
  | .cprim .undef => true
  | .cprim .jnull => true
  | _ => false

/-- A child argument whose nesting depth is at most one: either an
admissible leaf, or an array all of whose elements are admissible
leaves. -/
def shallow1 (c : CEChild) : Bool :=
  match c with
  | .clist l => l.all okLeaf
  | c => okLeaf c

/-- Modelled from the spec (section 4.1): the specified normalization of
one child — a primitive (string/number/boolean) becomes a text-marker
descriptor whose text prop is toString(value), null and undefined are
dropped, a descriptor is kept, and a nested sequence is flattened
recursively (fuel bounds the nesting depth); none marks a child the
specification does not cover. -/
def specChildOne : Nat → CEChild → Option (List VNode)
  | _, .cnode v => some [v]
  | _, .cprim (.str s) => some [createTextElement (.str s)]
  | _, .cprim (.num n) => some [createTextElement (.num n)]
  | _, .cprim (.bool b) => some [createTextElement (.bool b)]
  | _, .cprim .undef => some []
  | _, .cprim .jnull => some []
  | _, .cprim _ => none
  | 0, .clist _ => none
  | f+1, .clist l =>
      l.foldr (fun c acc => do
        let tail ← acc
        let head ← specChildOne f c
        pure (head ++ tail)) (some [])

/-- Modelled from the spec (section 4.1): the specified normalization of
a whole child sequence, concatenating the normalizations of its
elements in order. -/
def specChildren (f : Nat) (cs : List CEChild) : Option (List VNode) :=
  cs.foldr (fun c acc => do
    let tail ← acc
    let head ← specChildOne f c
    pure (head ++ tail)) (some [])

/-- Deleting an absent key leaves the object unchanged; deleting a
present key does not. -/
theorem objDelete_eq_self_iff (o : Obj) (k : String) :
    objDelete o k = o ↔ objHas o k = false := by
  induction o with
  | nil => simp [objDelete, objHas]
  | cons kv rest ih =>
    by_cases h : kv.1 = k
    · have h1 : objDelete (kv :: rest) k = objDelete rest k := by
        simp [objDelete, List.filter_cons, h]
      have h3 : objHas (kv :: rest) k = true := by
        simp [objHas, List.find?_cons, h]
      rw [h1, h3]
      constructor
      · intro hcontra
        exfalso
        have h2 : (objDelete rest k).length ≤ rest.length :=
          List.length_filter_le _ _
        have h4 := congrArg List.length hcontra
        simp only [List.length_cons] at h4
        unfold objDelete at h2 h4
        omega
      · intro hcontra
        exact absurd hcontra (by simp)
    · have h1 : objDelete (kv :: rest) k = kv :: objDelete rest k := by
        simp [objDelete, List.filter_cons, h]
      have h2 : objHas (kv :: rest) k = objHas rest k := by
        simp [objHas, List.find?_cons, h]
      rw [h1, h2, ← ih]
      constructor
      · intro hh
        injection hh
      · intro hh
        rw [hh]

/-- After deleting a key it is no longer present. -/
theorem objHas_objDelete (o : Obj) (k : String) :
    objHas (objDelete o k) k = false := by
  induction o with
  | nil => rfl
  | cons kv rest ih =>
    by_cases h : kv.1 = k
    · rw [show objDelete (kv :: rest) k = objDelete rest k by
        simp [objDelete, List.filter_cons, h]]
      exact ih
    · simp [objDelete, objHas, List.filter_cons, List.find?_cons, h, ih]

/-- Claim C9 (counterexample): createElement does not leave the caller's
props argument unmodified; when the props object carries a key entry,
the call deletes it in place, so the object observed by the caller after
the call differs from the one passed in. -/
theorem c9_cex_createElement_mutates_props :
    (createElement "div"
        [("key", JsVal.prim (Prim.num 1)), ("a", JsVal.prim (Prim.num 2))]
        []).props
      ≠ [("key", JsVal.prim (Prim.num 1)), ("a", JsVal.prim (Prim.num 2))] := by
  decide

/-- Claim C9 (amended): createElement is a pure function of its inputs
except for one in-place mutation: it deletes the key property from the
passed props object.  The caller's props argument is left unmodified
exactly when it carried no key entry; the extracted key is the value the
props carried under "key", and the key never survives as a regular prop
of the constructed descriptor. -/
theorem c9_createElement_key_extraction (t : String) (props : Obj) (cs : List CEChild) :
    ((createElement t props cs).props = props ↔ objHas props "key" = false)
      ∧ objHas (createElement t props cs).props "key" = false
      ∧ (createElement t props cs).key = objGet props "key" := by
  refine ⟨?_, ?_, rfl⟩
  · exact objDelete_eq_self_iff props "key"
  · exact objHas_objDelete props "key"

/-- Normalization of a single admissible leaf: the code's map-then-filter
pipeline applied to one leaf produces exactly the descriptors the
specification's normalization assigns to it. -/
theorem okLeaf_norm (f : Nat) (c : CEChild) (h : okLeaf c = true) :
    ∃ lc, specChildOne f c = some lc
      ∧ (if childNonNull (wrapChild c) then [wrapChild c] else [])
          = lc.map CEChild.cnode := by
  cases c with
  | cnode v =>
    exact ⟨[v], by cases f <;> rfl, by rfl⟩
  | cprim p =>
    cases p with
    | undef => exact ⟨[], by cases f <;> rfl, by rfl⟩
    | jnull => exact ⟨[], by cases f <;> rfl, by rfl⟩
    | str s => exact ⟨[createTextElement (.str s)], by cases f <;> rfl, by rfl⟩
    | num n => exact ⟨[createTextElement (.num n)], by cases f <;> rfl, by rfl⟩
    | bool b => exact ⟨[createTextElement (.bool b)], by cases f <;> rfl, by rfl⟩
    | fn id => exact absurd h (by simp [okLeaf])
    | obj id => exact absurd h (by simp [okLeaf])
  | clist l => exact absurd h (by simp [okLeaf])

/-- Normalization of a sequence of admissible leaves: the code pipeline
and the specification's normalization agree. -/
theorem leafList_norm (f : Nat) (l : List CEChild) (h : l.all okLeaf = true) :
    ∃ ll, specChildren f l = some ll
      ∧ (l.map wrapChild).filter childNonNull = ll.map CEChild.cnode := by
  induction l with
  | nil => exact ⟨[], rfl, rfl⟩
  | cons c rest ih =>
    simp only [List.all_cons, Bool.and_eq_true] at h
    obtain ⟨lrest, h1, h2⟩ := ih h.2
    obtain ⟨lc, h3, h4⟩ := okLeaf_norm f c h.1
    refine ⟨lc ++ lrest, ?_, ?_⟩
    · simp only [specChildren, List.foldr_cons]
      rw [show List.foldr _ (some []) rest = specChildren f rest from rfl, h1]
      simp only [Option.bind_eq_bind, Option.some_bind, h3]
      rfl
    · simp only [List.map_cons, List.filter_cons, h2, List.map_append, ← h4]
      by_cases hc : childNonNull (wrapChild c) <;> simp [hc]

/-- Unfolding equation: specified normalization of a cons cell. -/
theorem specChildren_cons (f : Nat) (c : CEChild) (rest : List CEChild) :
    specChildren f (c :: rest) = (do
      let tail ← specChildren f rest
      let head ← specChildOne f c
      pure (head ++ tail)) := rfl

/-- A nested sequence child is normalized by normalizing its elements. -/
theorem specChildOne_clist (f : Nat) (l : List CEChild) :
    specChildOne (f + 1) (CEChild.clist l) = specChildren f l := rfl

/-- Array.prototype.flat() leaves a non-array element in place. -/
theorem flattenOne_cons_nonlist (c : CEChild) (rest : List CEChild) (h : okLeaf c = true) :
    flattenOne (c :: rest) = c :: flattenOne rest := by
  cases c with
  | cnode v => rfl
  | cprim p => rfl
  | clist l => exact absurd h (by simp [okLeaf])

/-- Cons step of the code/spec agreement, for a leaf head. -/
theorem code_spec_agree_step (c : CEChild) (rest : List CEChild)
    (hc : okLeaf c = true) (lrest : List VNode)
    (h1 : specChildren 1 rest = some lrest)
    (h2 : ((flattenOne rest).map wrapChild).filter childNonNull = lrest.map CEChild.cnode) :
    ∃ l, specChildren 1 (c :: rest) = some l
      ∧ ((flattenOne (c :: rest)).map wrapChild).filter childNonNull
          = l.map CEChild.cnode := by
  obtain ⟨lc, h3, h4⟩ := okLeaf_norm 1 c hc
  refine ⟨lc ++ lrest, ?_, ?_⟩
  · rw [specChildren_cons, h1]
    simp [h3]
  · rw [flattenOne_cons_nonlist c rest hc]
    simp only [List.map_cons, List.filter_cons, h2, List.map_append, ← h4]
    by_cases hcc : childNonNull (wrapChild c) <;> simp [hcc]

/-- The code's child pipeline agrees with the specified normalization on
child sequences of nesting depth at most one. -/
theorem code_spec_agree (cs : List CEChild) (h : cs.all shallow1 = true) :
    ∃ l, specChildren 1 cs = some l
      ∧ ((flattenOne cs).map wrapChild).filter childNonNull = l.map CEChild.cnode := by
  induction cs with
  | nil => exact ⟨[], rfl, rfl⟩
  | cons c rest ih =>
    simp only [List.all_cons, Bool.and_eq_true] at h
    obtain ⟨lrest, h1, h2⟩ := ih h.2
    cases c with
    | cnode v => exact code_spec_agree_step _ rest h.1 lrest h1 h2
    | cprim p => exact code_spec_agree_step _ rest h.1 lrest h1 h2
    | clist l =>
      have hl : l.all okLeaf = true := h.1
      obtain ⟨ll, h3, h4⟩ := leafList_norm 0 l hl
      refine ⟨ll ++ lrest, ?_, ?_⟩
      · rw [specChildren_cons, h1, show specChildOne 1 (CEChild.clist l)
          = specChildren 0 l from rfl, h3]
        rfl
      · rw [show flattenOne (CEChild.clist l :: rest) = l ++ flattenOne rest from rfl]
        simp only [List.map_append, List.filter_append, h2, h4]

/-- Claim C8 (counterexample): createElement does not flatten nested
child sequences of depth two or more, and primitives inside such deep
nests are neither wrapped nor, for null, dropped: with the children
argument [[["a"]]], the resulting child sequence is the single leftover
raw array [["a"]] — not a flat sequence of descriptors. -/
theorem c8_cex_deep_nesting_not_flattened :
    (createElement "div" [] [CEChild.clist [CEChild.clist [CEChild.cprim (Prim.str "a")]]]).children
        = [CEChild.clist [CEChild.cprim (Prim.str "a")]]
      ∧ ((createElement "div" [] [CEChild.clist [CEChild.clist [CEChild.cprim (Prim.str "a")]]]).children.all
          childResolved) = false
      ∧ specChildren 2 [CEChild.clist [CEChild.clist [CEChild.cprim (Prim.str "a")]]]
          = some [createTextElement (Prim.str "a")] :=
  ⟨rfl, rfl, rfl⟩

/-- Claim C8 (amended): for child arguments of nesting depth at most one
— the shape produced by JSX — createElement normalizes children exactly
as specified: one level of flattening yields a single ordered sequence,
every string/number/boolean child is wrapped into a text-marker
descriptor carrying its string conversion, and null/undefined children
are dropped without reserving a slot.  For nesting of depth two or more
the code diverges from the specification (see the counterexample). -/
theorem c8_createElement_normalizes_shallow_children
    (t : String) (props : Obj) (cs : List CEChild) (h : cs.all shallow1 = true) :
    ∃ l, specChildren 1 cs = some l
      ∧ (createElement t props cs).children = l.map CEChild.cnode :=
  code_spec_agree cs h

/-- Claim C8 witness: a concrete shallow child list — a string, an
array containing null and a descriptor — satisfies the hypothesis and
the theorem applies to it. -/
theorem c8_witness :
    ([CEChild.cprim (Prim.str "x"),
      CEChild.clist [CEChild.cprim Prim.jnull, CEChild.cnode (createTextElement (Prim.num 3))]].all
        shallow1 = true)
      ∧ ∃ l, specChildren 1
            [CEChild.cprim (Prim.str "x"),
             CEChild.clist [CEChild.cprim Prim.jnull, CEChild.cnode (createTextElement (Prim.num 3))]]
          = some l
        ∧ (createElement "div" []
            [CEChild.cprim (Prim.str "x"),
             CEChild.clist [CEChild.cprim Prim.jnull, CEChild.cnode (createTextElement (Prim.num 3))]]).children
          = l.map CEChild.cnode :=
  ⟨rfl, c8_createElement_normalizes_shallow_children "div" [] _ rfl⟩

/-- The JS truthiness test used by the hook code (!x); stored dependency
fields are only ever null, undefined or an array, but the test is total. -/
def jsFalsy : JsVal → Bool
  | .prim .undef => true
  | .prim .jnull => true
  | .prim (.bool false) => true
  | .prim (.num 0) => true
  | .prim (.str "") => true
  | _ => false

/-- Indexing hook.deps[i] in JS: element of the array, or undefined when
out of range or when the value is not an array. -/
def arrElem (v : JsVal) (i : Nat) : Prim :=
  match v with
  | .arr es => (es.get? i).getD Prim.undef
  | _ => Prim.undef

/-- Dependency arguments to useEffect/useMemo: either omitted (undefined
in JS) or an array of values. -/
def depsVal : Option (List Prim) → JsVal
  | none => JsVal.prim Prim.undef
  | some l => JsVal.arr l

/-- The dependency comparison shared verbatim by useEffect and useMemo:
depsChanged = !hook.deps || !deps || deps.some((dep, i) => dep !== hook.deps[i]).
A falsy stored deps (null on slot creation) or an omitted deps argument
counts as changed; otherwise any elementwise strict inequality over the
indices of the new array counts as changed. -/
def depsChanged (stored : JsVal) (args : Option (List Prim)) : Bool :=
  if jsFalsy stored then true
  else match args with
    | none => true
    | some l => l.enum.any (fun p => p.2 ≠ arrElem stored p.1)

/-- Observable events of hook execution: an effect body running, a
stored cleanup function being invoked, a useMemo factory being called. -/
inductive HEvent
  | runEffect (body : Nat)
  | runCleanup (fnId : Nat)
  | callFactory (factory : Nat)
deriving DecidableEq, Repr

/-- A deferred effect execution queued by useEffect through
Promise.resolve().then(...): the captured slot index, the effect body
identity, the deps argument it will store, and the value the body
returns (the next cleanup). -/
structure ETask where
  slot : Nat
  body : Nat
  deps : Option (List Prim)
  ret : Prim
deriving DecidableEq, Repr

/-- Hook-dispatcher state of one component instance: the untyped _hooks
slot array (slots are plain JS objects, so a slot of the wrong shape is
read without complaint), the microtask queue of pending effect
executions, and the event log. -/
structure HComp where
  hooks : List Obj
  tasks : List ETask
  events : List HEvent
deriving DecidableEq, Repr

/-- One hook call-site in a component body.  The initial argument of a
state hook stands for the already-evaluated initial state, the value of
a memo hook is what its factory returns, and the ret of an effect is
what its body returns (its cleanup, or undefined). -/
inductive HookCall
  | hstate (initial : Prim)
  | heffect (body : Nat) (args : Option (List Prim)) (ret : Prim)
  | hmemo (factory : Nat) (args : Option (List Prim)) (value : Prim)
deriving Repr

/-- The slot-creation step shared by the hooks: if (!component._hooks[i])
component._hooks[i] = fresh.  Hook indices are assigned sequentially
from 0 within a render, so a missing slot is created exactly at the end
of the array. -/
def slotEnsure (hooks : List Obj) (i : Nat) (fresh : Obj) : List Obj :=
  if i < hooks.length then hooks else hooks ++ [fresh]

/-- One hook call of core/hooks.js at slot index i, returning the new
dispatcher state and the value the hook returns to the component.

useState: creates { state: initial } when the slot is missing, then
returns hook.state (whatever the slot holds — a misaligned slot of
another shape yields undefined).  The setter closure is modelled
separately by fcSetState.

useEffect: creates { deps: null, cleanup: null } when missing; when the
dependency comparison reports a change, invokes hook.cleanup now if it
is a function, and queues the effect body (which will store the deps and
the returned cleanup when the microtask runs).

useMemo: creates { deps: null, value: factory() } when missing (one
factory call); then, when the comparison reports a change — which it
does on a fresh slot, whose deps field is null — calls the factory
again and stores deps and value; returns hook.value. -/
def hookStep (c : HComp) (i : Nat) (call : HookCall) : HComp × JsVal :=
  match call with
  | .hstate initial =>
      let hooks := slotEnsure c.hooks i [("state", JsVal.prim initial)]
      let slot := (hooks.get? i).getD []
      ({ c with hooks := hooks }, objGet slot "state")
  | .heffect body args ret =>
      let hooks := slotEnsure c.hooks i
        [("deps", JsVal.prim Prim.jnull), ("cleanup", JsVal.prim Prim.jnull)]
      let slot := (hooks.get? i).getD []
      if depsChanged (objGet slot "deps") args then
        let events := match objGet slot "cleanup" with
          | .prim (.fn cid) => c.events ++ [HEvent.runCleanup cid]
          | _ => c.events
        ({ hooks := hooks
           tasks := c.tasks ++ [⟨i, body, args, ret⟩]
           events := events }, JsVal.prim Prim.undef)
      else
        ({ c with hooks := hooks }, JsVal.prim Prim.undef)
  | .hmemo factory args value =>
      let fresh := ¬ i < c.hooks.length
      let hooks := if i < c.hooks.length then c.hooks
        else c.hooks ++ [[("deps", JsVal.prim Prim.jnull), ("value", JsVal.prim value)]]
      let ev0 := if fresh then c.events ++ [HEvent.callFactory factory] else c.events
      let slot := (hooks.get? i).getD []
      if depsChanged (objGet slot "deps") args then
        let slot := objSet (objSet slot "deps" (depsVal args)) "value" (JsVal.prim value)
        ({ hooks := hooks.set i slot
           tasks := c.tasks
           events := ev0 ++ [HEvent.callFactory factory] }, objGet slot "value")
      else
        ({ c with hooks := hooks, events := ev0 }, objGet slot "value")

/-- A render pass of the dispatcher: prepareHooksForRender resets the
hook index to 0, then the component body issues its hook calls in
order.  Returns the final state and the value each hook returned. -/
def runHooks (c : HComp) (i : Nat) : List HookCall → HComp × List JsVal
  | [] => (c, [])
  | call :: rest =>
      let s := hookStep c i call
      let r := runHooks s.1 (i + 1) rest
      (r.1, s.2 :: r.2)

/-- Full render pass starting at hook index 0. -/
def runRender (c : HComp) (body : List HookCall) : HComp × List JsVal :=
  runHooks c 0 body

/-- Execution of one queued effect microtask: hook.deps = deps;
hook.cleanup = effect().  The effect body runs here, after the render
that scheduled it. -/
def runETask (c : HComp) (t : ETask) : HComp :=
  let slot := (c.hooks.get? t.slot).getD []
  let slot := objSet (objSet slot "deps" (depsVal t.deps)) "cleanup" (JsVal.prim t.ret)
  { c with hooks := c.hooks.set t.slot slot
           events := c.events ++ [HEvent.runEffect t.body] }

/-- Draining the microtask queue of pending effect executions in FIFO
order (effect tasks do not queue further tasks). -/
def drainHTasks (c : HComp) : HComp :=
  c.tasks.foldl runETask { c with tasks := [] }

/-- A functional component instance as built by FunctionalComponent in
core/component.js: the dispatcher state, the component body (its fixed
sequence of hook call-sites), whether _container is set (mounted), and
how many render() passes have run (each render pass re-runs the body
and performs the updateDOM diff against the previous tree; the count is
the observable we need). -/
structure FCWorld where
  comp : HComp
  body : List HookCall
  mounted : Bool
  renders : Nat

/-- FunctionalComponent._scheduleUpdate: if a container is set, call
this.render() — which re-runs the component body through the hook
dispatcher — and diff immediately, synchronously, on the caller's
stack.  There is no deferral and no coalescing here. -/
def fcScheduleUpdate (w : FCWorld) : FCWorld :=
  if w.mounted then
    { w with comp := (runRender w.comp w.body).1, renders := w.renders + 1 }
  else w

/-- An argument to a state setter: a plain value, or a function updater
(the JS code distinguishes the two by typeof newState === 'function'). -/
inductive UpdateArg
  | val (v : JsVal)
  | updFn (f : JsVal → JsVal)

/-- The setter closure returned by useState for slot i: compute the next
state (applying a function updater to the current hook.state), and if it
differs (strict inequality) store it and call component._scheduleUpdate. -/
def fcSetState (w : FCWorld) (i : Nat) (a : UpdateArg) : FCWorld :=
  let slot := (w.comp.hooks.get? i).getD []
  let cur := objGet slot "state"
  let next := match a with
    | .val v => v
    | .updFn f => f cur
  if next ≠ cur then
    fcScheduleUpdate
      { w with comp :=
        { w.comp with hooks := w.comp.hooks.set i (objSet slot "state" next) } }
  else w

/-- A partial-state argument to Component.setState: an object to merge,
or a function of (pending-or-committed state, props). -/
inductive StatePatch
  | pobj (o : Obj)
  | pfn (f : Obj → Obj → Obj)

/-- The JS object spread { ...a, ...b }: a's keys in order with values
overridden by b where present, followed by b's keys absent from a. -/
def objMerge (a b : Obj) : Obj :=
  a.map (fun kv => if objHas b kv.1 then (kv.1, objGet b kv.1) else kv)
    ++ b.filter (fun kv => ¬ objHas a kv.1)

/-- A class component instance (core/component.js) together with its
microtask queue and the observable render trace: props, committed
state, _pendingState, _isMounted, _renderScheduled, the queued flush
microtasks, the states at which render()+updateDOM ran, and the
shouldComponentUpdate guard (the base-class default returns true for
every triple). -/
structure CompWorld where
  props : Obj
  state : Obj
  pending : Option Obj
  mounted : Bool
  sched : Bool
  queue : List Unit
  renders : List Obj
  guard : Obj → Obj → Obj → Bool

/-- Component._scheduleUpdate: if no flush is scheduled, set the flag
and queue one flush microtask via Promise.resolve().then(...). -/
def compScheduleUpdate (w : CompWorld) : CompWorld :=
  if w.sched then w
  else { w with sched := true, queue := w.queue ++ [()] }

/-- Component.setState: merge the partial state (or the result of a
function updater applied to pending-or-committed state and props) into
pending-or-committed state, store it as the new _pendingState, and
schedule an update. -/
def compSetState (w : CompWorld) (p : StatePatch) : CompWorld :=
  let base := w.pending.getD w.state
  let patch := match p with
    | .pobj o => o
    | .pfn f => f base w.props
  compScheduleUpdate { w with pending := some (objMerge base patch) }

/-- Component._updateComponent: return unless mounted; read the pending
state; commit it into this.state and clear _pendingState; then consult
shouldComponentUpdate(this.props, nextState, prevState) — note the
commit happens before the guard runs — and, unless the guard returned
false, run render() and updateDOM (recorded by appending the rendered
state to the render trace).  The pending-none branch is unreachable:
the only caller checks _pendingState !== null first. -/
def compUpdateComponent (w : CompWorld) : CompWorld :=
  if ¬ w.mounted then w
  else
    match w.pending with
    | none => w
    | some nextState =>
      let prevState := w.state
      let w1 := { w with state := nextState, pending := none }
      if w1.guard w1.props nextState prevState = false then w1
      else { w1 with renders := w1.renders ++ [nextState] }

/-- The flush microtask queued by _scheduleUpdate: clear the flag, and
run _updateComponent if a pending state exists. -/
def compFlushTask (w : CompWorld) : CompWorld :=
  let w := { w with sched := false }
  match w.pending with
  | none => w
  | some _ => compUpdateComponent w

/-- Draining the microtask queue of a class component in FIFO order
(flush tasks do not queue further tasks, as the lifecycle callbacks are
not modelled to call setState). -/
def compDrain (w : CompWorld) : CompWorld :=
  w.queue.foldl (fun acc _ => compFlushTask acc) { w with queue := [] }

/-- A context object as built by createContext in core/hooks.js: a
Symbol identity and the captured default value.  The Provider and
Consumer element factories are modelled below. -/
structure Ctx where
  id : Nat
  defaultValue : JsVal

/-- createContext(defaultValue): fresh identity, stored default. -/
def createContext (id : Nat) (defaultValue : JsVal) : Ctx :=
  { id := id, defaultValue := defaultValue }

/-- The element produced by rendering context.Provider with a value: a
CONTEXT_PROVIDER-tagged node carrying the provided value and the
context identity in its props. -/
def ctxProvider (c : Ctx) (value : JsVal) : String × Obj :=
  ("CONTEXT_PROVIDER", [("value", value), ("contextId", JsVal.prim (Prim.obj c.id))])

/-- useContext from core/hooks.js: the body is exactly
return context.defaultValue — it consults no provider stack and no
surrounding tree, so its result is independent of any Provider the
caller may have rendered above it. -/
def useContext (c : Ctx) : JsVal :=
  c.defaultValue

/-- Reading the slot just appended at the end of the hook array. -/
theorem list_get?_concat {α : Type} (l : List α) (a : α) :
    (l ++ [a]).get? l.length = some a := by
  induction l with
  | nil => rfl
  | cons x xs ih => simp [ih]

/-- Overwriting the slot at the end of the hook array. -/
theorem list_set_concat {α : Type} (l : List α) (a b : α) :
    (l ++ [a]).set l.length b = l ++ [b] := by
  induction l with
  | nil => rfl
  | cons x xs ih => simp [List.set, ih]

/-- Claim C2: the code at the failing input.  A context is created with
default value 0 and a Provider element carrying the value 1 is
constructed around the consumer; still useContext returns the default 0
and not the provided 1, because the body of useContext in core/hooks.js
is exactly "return context.defaultValue" — it consults no provider.  In
general its result is independent of everything but the context object. -/
theorem c2_useContext_returns_default_despite_provider :
    (ctxProvider (createContext 7 (JsVal.prim (Prim.num 0))) (JsVal.prim (Prim.num 1))).2
        = [("value", JsVal.prim (Prim.num 1)), ("contextId", JsVal.prim (Prim.obj 7))]
      ∧ useContext (createContext 7 (JsVal.prim (Prim.num 0))) = JsVal.prim (Prim.num 0)
      ∧ useContext (createContext 7 (JsVal.prim (Prim.num 0))) ≠ JsVal.prim (Prim.num 1)
      ∧ ∀ c : Ctx, useContext c = c.defaultValue :=
  ⟨rfl, rfl, by decide, fun _ => rfl⟩

/-- Claim C3 (counterexample): a functional component instance violates
the coalescing and deferral discipline.  Starting from a mounted
instance whose body is a single useState(0) call, two setter calls
issued synchronously produce two render passes, both executed
immediately inside the setter calls (FunctionalComponent's
_scheduleUpdate renders on the caller's stack), and nothing is ever
queued for deferred execution. -/
theorem c3_cex_functional_component_renders_immediately :
    (fcSetState
        (fcSetState
          { comp := { hooks := [[("state", JsVal.prim (Prim.num 0))]], tasks := [], events := [] }
            body := [HookCall.hstate (Prim.num 0)]
            mounted := true
            renders := 0 }
          0 (UpdateArg.val (JsVal.prim (Prim.num 1))))
        0 (UpdateArg.val (JsVal.prim (Prim.num 2)))).renders = 2
      ∧ (fcSetState
          (fcSetState
            { comp := { hooks := [[("state", JsVal.prim (Prim.num 0))]], tasks := [], events := [] }
              body := [HookCall.hstate (Prim.num 0)]
              mounted := true
              renders := 0 }
            0 (UpdateArg.val (JsVal.prim (Prim.num 1))))
          0 (UpdateArg.val (JsVal.prim (Prim.num 2)))).comp.tasks = [] :=
  ⟨rfl, rfl⟩

/-- Claim C3 (amended): for class Component instances the claim holds.
Two setState calls issued synchronously against a mounted instance with
no scheduled flush produce no render pass during the calls themselves,
exactly one queued flush microtask, and — once the microtask queue is
drained — exactly one render pass whose state is both partial updates
merged into the original state in request order. -/
theorem c3_class_setState_coalesces (s0 props p1 p2 : Obj) :
    (compSetState (compSetState
        { props := props, state := s0, pending := none, mounted := true,
          sched := false, queue := [], renders := [], guard := fun _ _ _ => true }
        (StatePatch.pobj p1)) (StatePatch.pobj p2)).renders = []
      ∧ (compSetState (compSetState
          { props := props, state := s0, pending := none, mounted := true,
            sched := false, queue := [], renders := [], guard := fun _ _ _ => true }
          (StatePatch.pobj p1)) (StatePatch.pobj p2)).queue = [()]
      ∧ (compDrain (compSetState (compSetState
          { props := props, state := s0, pending := none, mounted := true,
            sched := false, queue := [], renders := [], guard := fun _ _ _ => true }
          (StatePatch.pobj p1)) (StatePatch.pobj p2))).renders
            = [objMerge (objMerge s0 p1) p2]
      ∧ (compDrain (compSetState (compSetState
          { props := props, state := s0, pending := none, mounted := true,
            sched := false, queue := [], renders := [], guard := fun _ _ _ => true }
          (StatePatch.pobj p1)) (StatePatch.pobj p2))).state
            = objMerge (objMerge s0 p1) p2
      ∧ (compDrain (compSetState (compSetState
          { props := props, state := s0, pending := none, mounted := true,
            sched := false, queue := [], renders := [], guard := fun _ _ _ => true }
          (StatePatch.pobj p1)) (StatePatch.pobj p2))).pending = none :=
  ⟨rfl, rfl, rfl, rfl, rfl⟩

/-- Convenience constructor of a mounted class-component instance with
a pending state, about to be updated. -/
def c4World (props s0 p : Obj) (g : Obj → Obj → Obj → Bool) (rs : List Obj) : CompWorld :=
  { props := props, state := s0, pending := some p, mounted := true,
    sched := false, queue := [], renders := rs, guard := g }

/-- Claim C4 (counterexample): bail-out is not state-free.  With an
update guard that returns false, _updateComponent issues no host-tree
work (the render trace is untouched) — but the pending state has
nevertheless been committed into this.state and cleared, contradicting
the claim that the commit happens only in the non-bail-out case. -/
theorem c4_cex_bailout_still_commits_state :
    (compUpdateComponent (c4World [] [("a", JsVal.prim (Prim.num 0))]
        [("a", JsVal.prim (Prim.num 1))] (fun _ _ _ => false) [])).renders = []
      ∧ (compUpdateComponent (c4World [] [("a", JsVal.prim (Prim.num 0))]
          [("a", JsVal.prim (Prim.num 1))] (fun _ _ _ => false) [])).state
            = [("a", JsVal.prim (Prim.num 1))]
      ∧ (compUpdateComponent (c4World [] [("a", JsVal.prim (Prim.num 0))]
          [("a", JsVal.prim (Prim.num 1))] (fun _ _ _ => false) [])).state
            ≠ [("a", JsVal.prim (Prim.num 0))]
      ∧ (compUpdateComponent (c4World [] [("a", JsVal.prim (Prim.num 0))]
          [("a", JsVal.prim (Prim.num 1))] (fun _ _ _ => false) [])).pending = none :=
  ⟨rfl, rfl, by decide, rfl⟩

/-- Claim C4 (amended): for every mounted instance with a pending state,
_updateComponent commits the pending state into the committed state and
clears the pending slot unconditionally, before the guard is consulted;
when the guard returns false for the (props, nextState, prevState)
triple, the update is discarded without any host-tree work, and only
when it does not return false does render/updateDOM run. -/
theorem c4_update_guard_bailout (props s0 p : Obj)
    (g : Obj → Obj → Obj → Bool) (rs : List Obj) :
    (compUpdateComponent (c4World props s0 p g rs)).state = p
      ∧ (compUpdateComponent (c4World props s0 p g rs)).pending = none
      ∧ (g props p s0 = false → (compUpdateComponent (c4World props s0 p g rs)).renders = rs)
      ∧ (g props p s0 = true → (compUpdateComponent (c4World props s0 p g rs)).renders = rs ++ [p]) := by
  by_cases h : g props p s0 = false
  · refine ⟨?_, ?_, fun _ => ?_, fun htrue => absurd htrue (by simp [h])⟩ <;>
      simp [compUpdateComponent, c4World, h]
  · refine ⟨?_, ?_, fun hfalse => absurd hfalse h, fun _ => ?_⟩ <;>
      simp [compUpdateComponent, c4World, h]

/-- Claim C4 witness: the theorem applied at a concrete bailing-out
instance. -/
theorem c4_witness :
    ((fun (_ _ _ : Obj) => false) [] [("a", JsVal.prim (Prim.num 1))]
        [("a", JsVal.prim (Prim.num 0))] = false)
      ∧ (compUpdateComponent (c4World [] [("a", JsVal.prim (Prim.num 0))]
          [("a", JsVal.prim (Prim.num 1))] (fun _ _ _ => false) [])).state
            = [("a", JsVal.prim (Prim.num 1))]
      ∧ (compUpdateComponent (c4World [] [("a", JsVal.prim (Prim.num 0))]
          [("a", JsVal.prim (Prim.num 1))] (fun _ _ _ => false) [])).renders = [] := by
  have h := c4_update_guard_bailout [] [("a", JsVal.prim (Prim.num 0))]
    [("a", JsVal.prim (Prim.num 1))] (fun _ _ _ => false) []
  exact ⟨rfl, h.1, h.2.2.1 rfl⟩

/-- An effect hook slot with a stored dependency array and cleanup. -/
def effectSlot (d : JsVal) (cl : Prim) : Obj :=
  [("deps", d), ("cleanup", JsVal.prim cl)]

/-- slotEnsure finds the slot that ends the hook array. -/
theorem slotEnsure_concat (pre : List Obj) (slot fresh : Obj) :
    slotEnsure (pre ++ [slot]) pre.length fresh = pre ++ [slot] := by
  simp [slotEnsure]

/-- The dependency comparison reports no change when the argument array
equals the stored array elementwise. -/
theorem depsChanged_same (d : List Prim) :
    depsChanged (JsVal.arr d) (some d) = false := by
  simp only [depsChanged, jsFalsy, if_false, Bool.false_eq_true, List.any_eq_false]
  intro p hp
  have h := List.mem_enum_iff_getElem?.mp hp
  simp [arrElem, List.get?_eq_getElem?, h]

/-- The dependency comparison reports a change on a one-element array
whose element differs from the stored one. -/
theorem depsChanged_single_ne (xold xnew : Prim) (h : xnew ≠ xold) :
    depsChanged (JsVal.arr [xold]) (some [xnew]) = true := by
  simp [depsChanged, jsFalsy, arrElem, List.enum, List.enumFrom, h]

/-- useEffect on an existing effect slot whose stored one-element deps
array is unchanged: the dispatcher state is returned untouched — no
cleanup invocation, no queued effect. -/
theorem hookStep_effect_unchanged (pre : List Obj) (xold : Prim) (cl : Prim)
    (tasks : List ETask) (evs : List HEvent) (body : Nat) (ret : Prim) :
    hookStep { hooks := pre ++ [effectSlot (JsVal.arr [xold]) cl],
               tasks := tasks, events := evs }
        pre.length (HookCall.heffect body (some [xold]) ret)
      = ({ hooks := pre ++ [effectSlot (JsVal.arr [xold]) cl],
           tasks := tasks, events := evs },
         JsVal.prim Prim.undef) := by
  simp only [hookStep, slotEnsure_concat, list_get?_concat, Option.getD_some]
  rw [show objGet (effectSlot (JsVal.arr [xold]) cl) "deps" = JsVal.arr [xold] from rfl,
    depsChanged_same]
  rfl

/-- useEffect on an existing effect slot whose stored one-element deps
array changed: the stored cleanup function is invoked now, and the new
effect body is queued as a microtask. -/
theorem hookStep_effect_changed (pre : List Obj) (xold xnew : Prim) (h : xnew ≠ xold)
    (cid body : Nat) (ret : Prim) (tasks : List ETask) (evs : List HEvent) :
    hookStep { hooks := pre ++ [effectSlot (JsVal.arr [xold]) (Prim.fn cid)],
               tasks := tasks, events := evs }
        pre.length (HookCall.heffect body (some [xnew]) ret)
      = ({ hooks := pre ++ [effectSlot (JsVal.arr [xold]) (Prim.fn cid)],
           tasks := tasks ++ [⟨pre.length, body, some [xnew], ret⟩],
           events := evs ++ [HEvent.runCleanup cid] },
         JsVal.prim Prim.undef) := by
  simp only [hookStep, slotEnsure_concat, list_get?_concat, Option.getD_some]
  rw [show objGet (effectSlot (JsVal.arr [xold]) (Prim.fn cid)) "deps"
      = JsVal.arr [xold] from rfl,
    depsChanged_single_ne xold xnew h]
  rfl

/-- Running the queued effect microtask of the slot that ends the hook
array: store the deps, run the body, store its return as the cleanup. -/
theorem runETask_at_end (pre : List Obj) (slot : Obj) (tasks : List ETask)
    (evs : List HEvent) (body : Nat) (args : Option (List Prim)) (ret : Prim) :
    runETask { hooks := pre ++ [slot], tasks := tasks, events := evs }
        ⟨pre.length, body, args, ret⟩
      = { hooks := pre ++ [objSet (objSet slot "deps" (depsVal args)) "cleanup"
            (JsVal.prim ret)],
          tasks := tasks,
          events := evs ++ [HEvent.runEffect body] } := by
  simp only [runETask, list_get?_concat, Option.getD_some, list_set_concat]

/-- Claim C5: effect dependency semantics.  For an effect slot whose
stored dependency array is [xold] and whose stored cleanup is the
function cid, a render passing deps [xnew]: (a) when xnew equals xold
(per-element identity), the dispatcher state is returned unchanged — the
effect is not re-queued and the stored cleanup is not invoked; (b) when
xnew differs, the stored cleanup runs synchronously during the render,
the new body is queued, and once the queued microtask executes, the
cleanup event precedes the new body's event and whatever the body
returned is stored as the new cleanup together with the new deps. -/
theorem c5_effect_dependency_semantics (pre : List Obj) (xold xnew : Prim)
    (cid body : Nat) (ret : Prim) (tasks : List ETask) (evs : List HEvent) :
    (xnew = xold →
      hookStep { hooks := pre ++ [effectSlot (JsVal.arr [xold]) (Prim.fn cid)],
                 tasks := tasks, events := evs }
          pre.length (HookCall.heffect body (some [xnew]) ret)
        = ({ hooks := pre ++ [effectSlot (JsVal.arr [xold]) (Prim.fn cid)],
             tasks := tasks, events := evs }, JsVal.prim Prim.undef))
      ∧ (xnew ≠ xold →
        (hookStep { hooks := pre ++ [effectSlot (JsVal.arr [xold]) (Prim.fn cid)],
                    tasks := tasks, events := evs }
            pre.length (HookCall.heffect body (some [xnew]) ret)).1
          = { hooks := pre ++ [effectSlot (JsVal.arr [xold]) (Prim.fn cid)],
              tasks := tasks ++ [⟨pre.length, body, some [xnew], ret⟩],
              events := evs ++ [HEvent.runCleanup cid] }
        ∧ runETask
            (hookStep { hooks := pre ++ [effectSlot (JsVal.arr [xold]) (Prim.fn cid)],
                        tasks := tasks, events := evs }
              pre.length (HookCall.heffect body (some [xnew]) ret)).1
            ⟨pre.length, body, some [xnew], ret⟩
          = { hooks := pre ++ [effectSlot (JsVal.arr [xnew]) ret],
              tasks := tasks ++ [⟨pre.length, body, some [xnew], ret⟩],
              events := evs ++ [HEvent.runCleanup cid, HEvent.runEffect body] }) := by
  constructor
  · intro hx
    subst hx
    exact hookStep_effect_unchanged pre xnew (Prim.fn cid) tasks evs body ret
  · intro hne
    have h1 := hookStep_effect_changed pre xold xnew hne cid body ret tasks evs
    refine ⟨by rw [h1], ?_⟩
    rw [h1]
    rw [runETask_at_end]
    simp [effectSlot, objSet, objHas, depsVal]

/-- Claim C5 witness: a concrete changed dependency — stored deps [1],
new deps [2], stored cleanup the function 4, effect body 5 returning the
function 6 — runs the stored cleanup during render and, after the
queued microtask, has stored the new cleanup 6 and deps [2] with the
cleanup event before the body event. -/
theorem c5_witness :
    (Prim.num 2 ≠ Prim.num 1)
      ∧ (hookStep { hooks := [effectSlot (JsVal.arr [Prim.num 1]) (Prim.fn 4)],
                    tasks := [], events := [] }
          0 (HookCall.heffect 5 (some [Prim.num 2]) (Prim.fn 6))).1
        = { hooks := [effectSlot (JsVal.arr [Prim.num 1]) (Prim.fn 4)],
            tasks := [⟨0, 5, some [Prim.num 2], Prim.fn 6⟩],
            events := [HEvent.runCleanup 4] }
      ∧ runETask
          (hookStep { hooks := [effectSlot (JsVal.arr [Prim.num 1]) (Prim.fn 4)],
                      tasks := [], events := [] }
            0 (HookCall.heffect 5 (some [Prim.num 2]) (Prim.fn 6))).1
          ⟨0, 5, some [Prim.num 2], Prim.fn 6⟩
        = { hooks := [effectSlot (JsVal.arr [Prim.num 2]) (Prim.fn 6)],
            tasks := [⟨0, 5, some [Prim.num 2], Prim.fn 6⟩],
            events := [HEvent.runCleanup 4, HEvent.runEffect 5] } := by
  have h := c5_effect_dependency_semantics [] (Prim.num 1) (Prim.num 2) 4 5 (Prim.fn 6) [] []
  exact ⟨by decide, (h.2 (by decide)).1, (h.2 (by decide)).2⟩

/-- Claim C6 (counterexample): the dispatcher does not detect hook-order
mismatches.  An instance first renders with [useState(5), useEffect] and
after the effect flush re-renders with the hooks swapped:
[useEffect, useState(5)].  The second render completes normally — no
error of any kind is raised (the embedded dispatcher, transcribed from
core/hooks.js, has no detection or failure path at all) — and the
useState call silently reads the misaligned effect slot, returning
undefined instead of the stored 5. -/
theorem c6_cex_mismatch_silently_proceeds :
    (runRender
        (drainHTasks (runRender { hooks := [], tasks := [], events := [] }
          [HookCall.hstate (Prim.num 5),
           HookCall.heffect 5 (some [Prim.num 5]) (Prim.fn 7)]).1)
        [HookCall.heffect 6 (some [Prim.num 5]) (Prim.fn 7),
         HookCall.hstate (Prim.num 5)]).2
      = [JsVal.prim Prim.undef, JsVal.prim Prim.undef] := rfl

set_option maxHeartbeats 2000000 in
/-- Claim C6 (amended): a render pass making a different sequence of
hook calls than the stored slot sequence is NOT detected: the
dispatcher silently proceeds with misaligned slots.  For every initial
state value v and cleanup ret: the first render [useState v, useEffect]
returns [v, undefined]; re-rendering with the calls swapped
[useEffect, useState v] completes normally and returns
[undefined, undefined] — the useState call reads the effect slot's
missing state field as undefined — and once the misdirected effect
microtask runs, the state slot has been silently polluted with deps and
cleanup fields. -/
theorem c6_no_hook_order_enforcement (v ret : Prim) :
    (runRender { hooks := [], tasks := [], events := [] }
        [HookCall.hstate v, HookCall.heffect 5 (some [v]) ret]).2
      = [JsVal.prim v, JsVal.prim Prim.undef]
    ∧ (runRender
        (drainHTasks (runRender { hooks := [], tasks := [], events := [] }
          [HookCall.hstate v, HookCall.heffect 5 (some [v]) ret]).1)
        [HookCall.heffect 6 (some [v]) ret, HookCall.hstate v]).2
      = [JsVal.prim Prim.undef, JsVal.prim Prim.undef]
    ∧ (drainHTasks (runRender
        (drainHTasks (runRender { hooks := [], tasks := [], events := [] }
          [HookCall.hstate v, HookCall.heffect 5 (some [v]) ret]).1)
        [HookCall.heffect 6 (some [v]) ret, HookCall.hstate v]).1).hooks.get? 0
      = some [("state", JsVal.prim v), ("deps", JsVal.arr [v]),
              ("cleanup", JsVal.prim ret)] :=
  ⟨rfl, rfl, rfl⟩

/-- Claim C10: useMemo invokes its factory exactly twice on the render
that creates its slot — once seeding the slot's value and once more
because the freshly stored dependency field is null, which the
comparison counts as changed — and the memoized value is then returned;
on a later render whose dependency array is elementwise unchanged the
factory is not invoked at all and the cached value is returned, with
the dispatcher state untouched. -/
theorem c10_useMemo_factory_invocations (hs : List Obj) (factory : Nat)
    (args : Option (List Prim)) (value : Prim) (tasks : List ETask) (evs : List HEvent)
    (pre : List Obj) (d : List Prim) (vstored vnew : Prim) (factory2 : Nat) :
    (hookStep { hooks := hs, tasks := tasks, events := evs } hs.length
        (HookCall.hmemo factory args value)).1.events
      = evs ++ [HEvent.callFactory factory, HEvent.callFactory factory]
    ∧ (hookStep { hooks := hs, tasks := tasks, events := evs } hs.length
        (HookCall.hmemo factory args value)).2 = JsVal.prim value
    ∧ (hookStep { hooks := hs, tasks := tasks, events := evs } hs.length
        (HookCall.hmemo factory args value)).1.hooks
      = hs ++ [[("deps", depsVal args), ("value", JsVal.prim value)]]
    ∧ (hookStep { hooks := pre ++ [[("deps", JsVal.arr d), ("value", JsVal.prim vstored)]],
                  tasks := tasks, events := evs } pre.length
        (HookCall.hmemo factory2 (some d) vnew))
      = ({ hooks := pre ++ [[("deps", JsVal.arr d), ("value", JsVal.prim vstored)]],
           tasks := tasks, events := evs }, JsVal.prim vstored) := by
  have hfresh : ¬ hs.length < hs.length := Nat.lt_irrefl _
  have hlt : pre.length < (pre ++ [[("deps", JsVal.arr d), ("value", JsVal.prim vstored)]] : List Obj).length := by
    simp
  have hfreshStep :
      hookStep { hooks := hs, tasks := tasks, events := evs } hs.length
          (HookCall.hmemo factory args value)
        = ({ hooks := hs ++ [[("deps", depsVal args), ("value", JsVal.prim value)]],
             tasks := tasks,
             events := evs ++ [HEvent.callFactory factory, HEvent.callFactory factory] },
           JsVal.prim value) := by
    simp only [hookStep]
    rw [if_neg hfresh, if_pos hfresh, list_get?_concat]
    simp only [Option.getD_some]
    rw [show objGet [("deps", JsVal.prim Prim.jnull), ("value", JsVal.prim value)] "deps"
        = JsVal.prim Prim.jnull from rfl]
    rw [show depsChanged (JsVal.prim Prim.jnull) args = true from rfl]
    rw [if_pos rfl, list_set_concat]
    simp [objSet, objHas, objGet, List.append_assoc]
  refine ⟨?_, ?_, ?_, ?_⟩
  · rw [hfreshStep]
  · rw [hfreshStep]
  · rw [hfreshStep]
  · simp only [hookStep]
    rw [if_pos hlt, if_neg (not_not_intro hlt), list_get?_concat]
    simp only [Option.getD_some]
    rw [show objGet [("deps", JsVal.arr d), ("value", JsVal.prim vstored)] "deps"
        = JsVal.arr d from rfl, depsChanged_same]
    rfl

/-- The JS test "x != null" on a stored key value. -/
def jsValNonNull (v : JsVal) : Bool :=
  match v with
  | .prim .undef => false
  | .prim .jnull => false
  | _ => true

/-- A host (DOM) node, modelled by exactly what the reconciliation
algorithms read back from the host tree: its identity and its
childNodes.  Everything written to a node (properties, listeners,
styles, text) is write-only for these algorithms and is captured in the
emitted mutation trace instead. -/
inductive Dom
  | mk (id : Nat) (children : List Dom)

/-- Identity of a host node. -/
def Dom.id : Dom → Nat
  | .mk i _ => i

/-- childNodes of a host node. -/
def Dom.children : Dom → List Dom
  | .mk _ c => c

/-- Replacing the childNodes of a host node. -/
def Dom.withChildren : Dom → List Dom → Dom
  | .mk i _, c => .mk i c

/-- One host-adapter mutation call, as issued by the renderer: listener
detach/attach, property clear/write, style write, class attribute
write, text write, and the structural child operations.  Node arguments
are recorded by identity. -/
inductive Mutation
  | removeListener (dom : Nat) (event : String)
  | clearProp (dom : Nat) (name : String)
  | addListener (dom : Nat) (event : String)
  | styleWrite (dom : Nat) (v : JsVal)
  | setClassAttr (dom : Nat) (v : JsVal)
  | setProp (dom : Nat) (name : String) (v : JsVal)
  | setNodeValue (dom : Nat) (v : JsVal)
  | appendChild (parent child : Nat)
  | removeChild (parent child : Nat)
  | replaceChild (parent newChild oldChild : Nat)
  | insertBefore (parent child ref : Nat)
  | clearContainer (dom : Nat)
deriving DecidableEq, Repr

/-- name.toLowerCase().substring(2), the event-type derivation. -/
def evtType (name : String) : String :=
  (name.toLower).drop 2

/-- Object.keys of a property bag.  Real JS objects have unique keys in
insertion order, which is exactly the association list's key column. -/
def objKeys (o : Obj) : List String :=
  o.map Prod.fst

/-- typeof x === 'function'. -/
def isFunc (v : JsVal) : Bool :=
  match v with
  | .prim (.fn _) => true
  | _ => false

/-- typeof x === 'object' (true for objects, arrays and null). -/
def isObjType (v : JsVal) : Bool :=
  match v with
  | .prim (.obj _) => true
  | .prim .jnull => true
  | .arr _ => true
  | _ => false

/-- updateDOMProperties from core/renderer.js, as the trace of host
mutations it issues against the node domId.  First loop: detach the
listener of every on-prefixed old prop that is absent or changed in the
new props.  Second loop: clear (write empty string to) every old prop
absent from the new props, except children.  Third loop: for every new
prop other than children/key whose value differs from the old one —
attach function-valued on-props as listeners, merge object-valued style
props onto the style surface, map className to the class attribute, set
other non-object non-function values as direct properties, and ignore
the remaining object/function values. -/
def updateDOMProperties (domId : Nat) (prev next : Obj) : List Mutation :=
  let removed := (objKeys prev).filterMap (fun name =>
    if name.startsWith "on"
        ∧ (objHas next name = false ∨ objGet prev name ≠ objGet next name) then
      some (Mutation.removeListener domId (evtType name))
    else none)
  let cleared := (objKeys prev).filterMap (fun name =>
    if objHas next name = false ∧ name ≠ "children" then
      some (Mutation.clearProp domId name)
    else none)
  let written := (objKeys next).filterMap (fun name =>
    if name ≠ "children" ∧ name ≠ "key" ∧ objGet prev name ≠ objGet next name then
      if name.startsWith "on" ∧ isFunc (objGet next name) then
        some (Mutation.addListener domId (evtType name))
      else if name = "style" ∧ isObjType (objGet next name) then
        some (Mutation.styleWrite domId (objGet next name))
      else if name = "className" then
        some (Mutation.setClassAttr domId (objGet next name))
      else if ¬ isObjType (objGet next name) ∧ ¬ isFunc (objGet next name) then
        some (Mutation.setProp domId name (objGet next name))
      else none
    else none)
  removed ++ cleared ++ written

mutual

/-- createDOMElement from core/renderer.js: build a fresh, detached
host subtree for a descriptor, threading a counter for fresh node
identities.  A TEXT_ELEMENT becomes a text node; any other tag becomes
an element whose props are written onto the fresh (detached) node and
whose children are materialized and appended in order.  Only the
attachment of the finished subtree into the live tree is traced, by the
caller. -/
def createDOMElement : Nat → VNode → Nat → Option (Dom × Nat)
  | 0, _, _ => none
  | f + 1, v, c =>
      if v.vtype = "TEXT_ELEMENT" then some (Dom.mk c [], c + 1)
      else do
        let s ← createChildren f v.children (c + 1)
        pure (Dom.mk c s.1, s.2)
termination_by structural f _ _ => f

/-- Recursive materialization of a child list (the forEach appending
created children in order). -/
def createChildren : Nat → List VNode → Nat → Option (List Dom × Nat)
  | _, [], c => some ([], c)
  | 0, _ :: _, _ => none
  | f + 1, v :: rest, c => do
      let s ← createDOMElement f v c
      let s2 ← createChildren f rest s.2
      pure (s.1 :: s2.1, s2.2)
termination_by structural f _ _ => f

end

/-- Assignment oldKeyedChildren[key] = { vnode, index }: overwrite an
existing entry in place or append a new one (JS object key order).
JS object keys are strings, so a numeric key 1 and the string key "1"
would collide there; the embedding keeps value identity, which agrees
on the homogeneous keys the renderer is used with. -/
def insertKeyed (m : List (JsVal × VNode × Nat)) (k : JsVal) (v : VNode) (i : Nat) :
    List (JsVal × VNode × Nat) :=
  if m.any (fun e => e.1 = k) then
    m.map (fun e => if e.1 = k then (k, v, i) else e)
  else m ++ [(k, v, i)]

/-- Reading oldKeyedChildren[key]. -/
def lookupKeyed (m : List (JsVal × VNode × Nat)) (k : JsVal) : Option (VNode × Nat) :=
  match m.find? (fun e => e.1 = k) with
  | some e => some e.2
  | none => none

/-- The first forEach of reconcileChildren: collect every old child
with a non-null key into the key → (vnode, index) map. -/
def buildKeyedAux : List VNode → Nat → List (JsVal × VNode × Nat) →
    List (JsVal × VNode × Nat)
  | [], _, m => m
  | v :: rest, i, m =>
      buildKeyedAux rest (i + 1)
        (if jsValNonNull v.key then insertKeyed m v.key v i else m)

/-- Key map of the old children, indices starting at 0. -/
def buildKeyed (olds : List VNode) : List (JsVal × VNode × Nat) :=
  buildKeyedAux olds 0 []

/-- Insertion of a detached node before the child with the given
identity; none when the reference node is not found (the DOM
insertBefore would throw NotFoundError). -/
def insertBeforeId : List Dom → Dom → Nat → Option (List Dom)
  | [], _, _ => none
  | d :: rest, node, refId =>
      if d.id = refId then some (node :: d :: rest)
      else do
        let l ← insertBeforeId rest node refId
        pure (d :: l)

/-- parentDOM.insertBefore(node, ref) when node is already in the
tree: the DOM first detaches the node from its current position, then
inserts it before ref. -/
def moveBefore (parent : Dom) (nodeId refId : Nat) : Option Dom := do
  let node ← parent.children.find? (fun d => d.id = nodeId)
  let rest := parent.children.eraseP (fun d => d.id = nodeId)
  let l ← insertBeforeId rest node refId
  pure (parent.withChildren l)

/-- The final forEach of reconcileChildren: for every old keyed child
whose key is absent from the new keyed set, remove
parentDOM.childNodes[index] — the node currently at the index recorded
when the map was built, which earlier moves may have re-occupied with a
different node.  Iteration follows the map's key order. -/
def removePass : Dom → List (JsVal × VNode × Nat) → List JsVal →
    Option (Dom × List Mutation)
  | target, [], _ => some (target, [])
  | target, (k, _, idx) :: rest, newKeys =>
    if newKeys.any (fun k2 => k2 = k) then removePass target rest newKeys
    else do
      let node ← target.children.get? idx
      let t1 := target.withChildren (target.children.eraseIdx idx)
      let s ← removePass t1 rest newKeys
      pure (s.1, Mutation.removeChild target.id node.id :: s.2)

set_option maxHeartbeats 1000000 in
mutual

/-- updateDOM from core/renderer.js: diff old and new descriptors at
childNodes[index] of the given parent, returning the updated parent,
the fresh-identity counter and the trace of host mutations; none when
the JavaScript would have thrown (an absent childNodes[index] used as a
node) or when the fuel is exhausted.  Cases: materialize-and-append
when there is no old node; removeChild when there is no new one;
replaceChild on a type change; for equal types, a targeted nodeValue
write for text elements, and otherwise a prop diff followed by keyed
reconciliation when both child lists contain a keyed child, or by
positional recursion over max(old, new) indices. -/
def updateDOM : Nat → Dom → Option VNode → Option VNode → Nat → Nat →
    Option (Dom × Nat × List Mutation)
  | 0, _, _, _, _, _ => none
  | f + 1, parent, old?, new?, index, c =>
    match old?, new? with
    | none, none => some (parent, c, [])
    | none, some n => do
        let s ← createDOMElement f n c
        pure (parent.withChildren (parent.children ++ [s.1]), s.2,
          [Mutation.appendChild parent.id s.1.id])
    | some _, none => do
        let node ← parent.children.get? index
        pure (parent.withChildren (parent.children.eraseIdx index), c,
          [Mutation.removeChild parent.id node.id])
    | some o, some n =>
      if o.vtype ≠ n.vtype then do
        let s ← createDOMElement f n c
        let node ← parent.children.get? index
        pure (parent.withChildren (parent.children.set index s.1), s.2,
          [Mutation.replaceChild parent.id s.1.id node.id])
      else if o.vtype = "TEXT_ELEMENT" then
        if objGet o.props "nodeValue" ≠ objGet n.props "nodeValue" then do
          let node ← parent.children.get? index
          pure (parent, c, [Mutation.setNodeValue node.id (objGet n.props "nodeValue")])
        else some (parent, c, [])
      else do
        let target ← parent.children.get? index
        let m1 := updateDOMProperties target.id o.props n.props
        if (o.children.any (fun ch => jsValNonNull ch.key))
            && (n.children.any (fun ch => jsValNonNull ch.key)) then do
          let s ← reconcileChildren f target o.children n.children c
          pure (parent.withChildren (parent.children.set index s.1), s.2.1,
            m1 ++ s.2.2)
        else do
          let s ← updateChildren f target o.children n.children 0
            (max o.children.length n.children.length) c
          pure (parent.withChildren (parent.children.set index s.1), s.2.1,
            m1 ++ s.2.2)
termination_by structural f _ _ _ _ _ => f

/-- The non-keyed child walk of updateDOM: for i from the current index
while fewer than the remaining count, recursively diff the pair of
children at i. -/
def updateChildren : Nat → Dom → List VNode → List VNode → Nat → Nat → Nat →
    Option (Dom × Nat × List Mutation)
  | _, target, _, _, _, 0, c => some (target, c, [])
  | 0, _, _, _, _, _ + 1, _ => none
  | f + 1, target, olds, news, i, r + 1, c => do
      let s ← updateDOM f target olds[i]? news[i]? i c
      let s2 ← updateChildren f s.1 olds news (i + 1) r s.2.1
      pure (s2.1, s2.2.1, s.2.2 ++ s2.2.2)
termination_by structural f _ _ _ _ _ _ => f

/-- The second forEach of reconcileChildren, walking the new children
with their index j while tracking lastIndex and the set of new keys.
An unkeyed new child falls back to the index-based diff.  A keyed new
child found in the old map is diffed in place at the old index and, when
that old index is smaller than lastIndex, the node currently at the old
index is moved before the node currently at lastIndex; otherwise
lastIndex becomes the old index.  A keyed new child absent from the old
map is materialized and appended (when j is beyond the current child
count) or inserted before the node currently at j. -/
def reconcileLoop : Nat → Dom → List VNode → List (JsVal × VNode × Nat) →
    List VNode → Nat → Nat → List JsVal → Nat →
    Option (Dom × Nat × List Mutation × List JsVal)
  | _, target, _, _, [], _, _, newKeys, c => some (target, c, [], newKeys)
  | 0, _, _, _, _ :: _, _, _, _, _ => none
  | f + 1, target, olds, oldKeyed, n :: rest, j, lastIndex, newKeys, c =>
    if jsValNonNull n.key = false then do
      let s ← updateDOM f target olds[j]? (some n) j c
      let s2 ← reconcileLoop f s.1 olds oldKeyed rest (j + 1) lastIndex newKeys s.2.1
      pure (s2.1, s2.2.1, s.2.2 ++ s2.2.2.1, s2.2.2.2)
    else
      match lookupKeyed oldKeyed n.key with
      | some (ov, oidx) => do
          let s ← updateDOM f target (some ov) (some n) oidx c
          if oidx < lastIndex then do
            let node ← s.1.children.get? oidx
            let ref ← s.1.children.get? lastIndex
            let t1 ← moveBefore s.1 node.id ref.id
            let s2 ← reconcileLoop f t1 olds oldKeyed rest (j + 1) lastIndex
              (newKeys ++ [n.key]) s.2.1
            pure (s2.1, s2.2.1,
              s.2.2 ++ [Mutation.insertBefore s.1.id node.id ref.id] ++ s2.2.2.1,
              s2.2.2.2)
          else do
            let s2 ← reconcileLoop f s.1 olds oldKeyed rest (j + 1) oidx
              (newKeys ++ [n.key]) s.2.1
            pure (s2.1, s2.2.1, s.2.2 ++ s2.2.2.1, s2.2.2.2)
      | none => do
          let s ← createDOMElement f n c
          if target.children.length ≤ j then do
            let t1 := target.withChildren (target.children ++ [s.1])
            let s2 ← reconcileLoop f t1 olds oldKeyed rest (j + 1) lastIndex
              (newKeys ++ [n.key]) s.2
            pure (s2.1, s2.2.1,
              Mutation.appendChild target.id s.1.id :: s2.2.2.1, s2.2.2.2)
          else do
            let ref ← target.children.get? j
            let l ← insertBeforeId target.children s.1 ref.id
            let s2 ← reconcileLoop f (target.withChildren l) olds oldKeyed rest
              (j + 1) lastIndex (newKeys ++ [n.key]) s.2
            pure (s2.1, s2.2.1,
              Mutation.insertBefore target.id s.1.id ref.id :: s2.2.2.1, s2.2.2.2)


/-- reconcileChildren from core/renderer.js: build the old key map,
process the new children, then remove the old keyed children whose keys
never appeared among the new keys. -/
def reconcileChildren : Nat → Dom → List VNode → List VNode → Nat →
    Option (Dom × Nat × List Mutation)
  | 0, _, _, _, _ => none
  | f + 1, target, olds, news, c => do
      let oldKeyed := buildKeyed olds
      let s ← reconcileLoop f target olds oldKeyed news 0 0 [] c
      let s2 ← removePass s.1 oldKeyed s.2.2.2
      pure (s2.1, s.2.1, s.2.2.1 ++ s2.2)
termination_by structural f _ _ _ _ => f

end

/-- A render container: its host node and the remembered previous
descriptor tree (container._currentVNode). -/
structure Container where
  dom : Dom
  current : Option VNode

/-- render from core/renderer.js: diff against the remembered previous
tree when one exists, else clear the container and materialize from
scratch; always remember the new tree. -/
def render (f : Nat) (v : VNode) (ct : Container) (c : Nat) :
    Option (Container × Nat × List Mutation) :=
  match ct.current with
  | some old => do
      let s ← updateDOM f ct.dom (some old) (some v) 0 c
      pure ({ dom := s.1, current := some v }, s.2.1, s.2.2)
  | none => do
      let s ← createDOMElement f v c
      pure ({ dom := ct.dom.withChildren [s.1], current := some v }, s.2,
        [Mutation.clearContainer ct.dom.id, Mutation.appendChild ct.dom.id s.1.id])

/-- A keyed leaf child descriptor with numeric key k. -/
def c1Child (k : Int) : VNode :=
  VNode.mk "div" [] (JsVal.prim (Prim.num k)) []

/-- The old sibling list, keyed [1, 2, 3]. -/
def c1OldTree : VNode :=
  VNode.mk "div" [] (JsVal.prim Prim.undef) [c1Child 1, c1Child 2, c1Child 3]

/-- The new sibling list, keyed [3, 1]. -/
def c1NewTree : VNode :=
  VNode.mk "div" [] (JsVal.prim Prim.undef) [c1Child 3, c1Child 1]

/-- The container after materializing the old tree: container node 100
holding the root node 0 whose children are the host nodes H1 = 1,
H2 = 2, H3 = 3 for keys 1, 2, 3. -/
def c1Container : Container :=
  { dom := Dom.mk 100 [Dom.mk 0 [Dom.mk 1 [], Dom.mk 2 [], Dom.mk 3 []]],
    current := some c1OldTree }

set_option maxHeartbeats 2000000 in
/-- Claim C1: the code evaluated at the failing input.  Reconciling host
children [H1, H2, H3] keyed [1, 2, 3] to the keyed list [3, 1] should,
per the claim, remove exactly H2 and leave host order [H3, H1].  The
code instead: matches key 3 at old index 2 (setting lastIndex to 2),
matches key 1 at old index 0 and — since 0 < 2 — issues
insertBefore(childNodes[0], childNodes[2]), making the order
[H2, H1, H3]; the removal pass then deletes childNodes[1] using the
index recorded for key 2 before the move, which now holds H1.  Net
effect: H1 is removed, H2 survives, and the final host order is
[H2, H3].  No new node is created (the identity counter is unchanged),
which is the only part of the claim the code satisfies. -/
theorem c1_keyed_reconciliation_removes_wrong_node :
    render 20 c1NewTree c1Container 5000
      = some ({ dom := Dom.mk 100 [Dom.mk 0 [Dom.mk 2 [], Dom.mk 3 []]],
                current := some c1NewTree }, 5000,
          [Mutation.insertBefore 0 1 3, Mutation.removeChild 0 1]) := rfl

/-- The keys of the keyed children of a sibling list, in order. -/
def keysOf (l : List VNode) : List JsVal :=
  l.filterMap (fun v => if jsValNonNull v.key then some v.key else none)

/-- Structural agreement between a host node and a descriptor: the host
child count matches the descriptor child count at every level.  This is
the state in which the renderer itself leaves the host tree after
materializing the descriptor. -/
inductive Agrees : Dom → VNode → Prop
  | mk (i : Nat) (ds : List Dom) (t : String) (p : Obj) (k : JsVal) (vs : List VNode)
      (hlen : ds.length = vs.length)
      (hchild : ∀ j (h1 : j < ds.length) (h2 : j < vs.length),
        Agrees (ds.get ⟨j, h1⟩) (vs.get ⟨j, h2⟩)) :
      Agrees (Dom.mk i ds) (VNode.mk t p k vs)

/-- The spec's key invariant (section 3): within every sibling list of
the tree, the keyed children carry pairwise distinct keys. -/
inductive NDK : VNode → Prop
  | mk (t : String) (p : Obj) (k : JsVal) (vs : List VNode)
      (hkeys : (keysOf vs).Nodup)
      (hchild : ∀ v ∈ vs, NDK v) : NDK (VNode.mk t p k vs)

/-- Child-level agreement between a host node and a sibling list. -/
def ChildrenAgree (target : Dom) (vs : List VNode) : Prop :=
  target.children.length = vs.length ∧
  ∀ j (h1 : j < target.children.length) (h2 : j < vs.length),
    Agrees (target.children.get ⟨j, h1⟩) (vs.get ⟨j, h2⟩)

/-- Agreement of a node unfolds to agreement of its children. -/
theorem Agrees.children_agree {d : Dom} {v : VNode} (h : Agrees d v) :
    ChildrenAgree d v.children := by
  cases h with
  | mk i ds t p k vs hlen hchild => exact ⟨hlen, hchild⟩

/-- Setting a list entry to the value it already holds is the identity. -/
theorem list_set_self {α : Type} (l : List α) (i : Nat) (a : α)
    (h : l.get? i = some a) : l.set i a = l := by
  induction l generalizing i with
  | nil => rfl
  | cons x xs ih =>
    cases i with
    | zero =>
      simp only [List.get?] at h
      injection h with h
      simp [List.set, h]
    | succ n =>
      simp only [List.get?] at h
      simp [List.set, ih n h]

/-- Rebuilding a host node from its own children is the identity. -/
theorem dom_withChildren_self (d : Dom) : d.withChildren d.children = d := by
  cases d with
  | mk i c => rfl

/-- Every list has positive size. -/
theorem list_sizeOf_pos {α : Type} [SizeOf α] (l : List α) : 1 ≤ sizeOf l := by
  cases l with
  | nil => simp
  | cons x xs => simp; omega

/-- Prop diff of a property bag against itself issues no mutation: every
old key is still present with an identical value, and no new value
differs from the old one. -/
theorem updateDOMProperties_same (domId : Nat) (p : Obj) :
    updateDOMProperties domId p p = [] := by
  have hmem : ∀ name ∈ objKeys p, objHas p name = true := by
    intro name hname
    obtain ⟨kv, hkv, hfst⟩ := List.mem_map.mp hname
    simp only [objHas, List.find?_isSome]
    exact ⟨kv, hkv, by simp [hfst]⟩
  have h1 : (objKeys p).filterMap (fun name =>
      if name.startsWith "on"
          ∧ (objHas p name = false ∨ objGet p name ≠ objGet p name) then
        some (Mutation.removeListener domId (evtType name))
      else none) = [] := by
    rw [List.filterMap_eq_nil_iff]
    intro name hname
    rw [if_neg]
    rintro ⟨-, hc | hc⟩
    · rw [hmem name hname] at hc
      exact absurd hc (by simp)
    · exact hc rfl
  have h2 : (objKeys p).filterMap (fun name =>
      if objHas p name = false ∧ name ≠ "children" then
        some (Mutation.clearProp domId name)
      else none) = [] := by
    rw [List.filterMap_eq_nil_iff]
    intro name hname
    rw [if_neg]
    rintro ⟨hc, -⟩
    rw [hmem name hname] at hc
    exact absurd hc (by simp)
  have h3 : (objKeys p).filterMap (fun name =>
      if name ≠ "children" ∧ name ≠ "key" ∧ objGet p name ≠ objGet p name then
        if name.startsWith "on" ∧ isFunc (objGet p name) then
          some (Mutation.addListener domId (evtType name))
        else if name = "style" ∧ isObjType (objGet p name) then
          some (Mutation.styleWrite domId (objGet p name))
        else if name = "className" then
          some (Mutation.setClassAttr domId (objGet p name))
        else if ¬ isObjType (objGet p name) ∧ ¬ isFunc (objGet p name) then
          some (Mutation.setProp domId name (objGet p name))
        else none
      else none) = [] := by
    rw [List.filterMap_eq_nil_iff]
    intro name hname
    rw [if_neg]
    rintro ⟨-, -, hc⟩
    exact hc rfl
  simp only [updateDOMProperties]
  rw [h1, h2, h3]
  rfl

/-- find? over the overwrite-in-place map finds the overwritten entry. -/
theorem find?_mapped_self (m : List (JsVal × VNode × Nat)) (k : JsVal)
    (v : VNode) (i : Nat) (hany : m.any (fun e => e.1 = k) = true) :
    (m.map (fun e => if e.1 = k then (k, v, i) else e)).find? (fun e => e.1 = k)
      = some (k, v, i) := by
  induction m with
  | nil => simp at hany
  | cons e0 rest ih =>
    by_cases h0 : e0.1 = k
    · simp [List.find?_cons, h0]
    · have hrest : rest.any (fun e => e.1 = k) = true := by
        simp only [List.any_cons, Bool.or_eq_true, decide_eq_true_eq] at hany
        rcases hany with hc | hc
        · exact absurd hc h0
        · simpa using hc
      simp [List.find?_cons, h0, ih hrest]

/-- find? over the overwrite-in-place map is unchanged at other keys. -/
theorem find?_mapped_other (m : List (JsVal × VNode × Nat)) (k : JsVal)
    (v : VNode) (i : Nat) (k2 : JsVal) (h : ¬ k2 = k) :
    (m.map (fun e => if e.1 = k then (k, v, i) else e)).find? (fun e => e.1 = k2)
      = m.find? (fun e => e.1 = k2) := by
  induction m with
  | nil => rfl
  | cons e0 rest ih =>
    by_cases h0 : e0.1 = k
    · have h1 : ¬ e0.1 = k2 := by
        rw [h0]
        exact fun hc => h hc.symm
      have h2 : ¬ (k = k2) := fun hc => h hc.symm
      simp [List.find?_cons, h0, h1, h2, ih]
    · by_cases h2 : e0.1 = k2 <;> simp [List.find?_cons, h0, h2, h, ih]

/-- When no entry matches, find? over the appended list reaches the
appended entry. -/
theorem find?_append_single_none (m : List (JsVal × VNode × Nat))
    (entry : JsVal × VNode × Nat) (k2 : JsVal)
    (h : m.find? (fun e => e.1 = k2) = none) :
    (m ++ [entry]).find? (fun e => e.1 = k2)
      = if entry.1 = k2 then some entry else none := by
  induction m with
  | nil => by_cases hc : entry.1 = k2 <;> simp [List.find?_cons, hc]
  | cons e0 rest ih =>
    rw [List.find?_cons] at h
    by_cases h0 : e0.1 = k2
    · simp [h0] at h
    · simp only [List.cons_append, List.find?_cons]
      have := ih (by simpa [h0] using h)
      simpa [h0] using this

/-- find? ignores an appended entry whose key does not match. -/
theorem find?_append_single_skip (m : List (JsVal × VNode × Nat))
    (entry : JsVal × VNode × Nat) (k2 : JsVal) (h : ¬ entry.1 = k2) :
    (m ++ [entry]).find? (fun e => e.1 = k2) = m.find? (fun e => e.1 = k2) := by
  induction m with
  | nil => simp [List.find?_cons, h]
  | cons e0 rest ih =>
    by_cases h0 : e0.1 = k2 <;> simp [List.find?_cons, h0, ih]

/-- After assigning key k, looking k up yields the assigned entry. -/
theorem lookupKeyed_insert_self (m : List (JsVal × VNode × Nat)) (k : JsVal)
    (v : VNode) (i : Nat) :
    lookupKeyed (insertKeyed m k v i) k = some (v, i) := by
  unfold insertKeyed
  by_cases hany : m.any (fun e => e.1 = k) = true
  · rw [if_pos hany]
    unfold lookupKeyed
    rw [find?_mapped_self m k v i hany]
  · rw [if_neg hany]
    unfold lookupKeyed
    have hnone : m.find? (fun e => e.1 = k) = none := by
      rw [List.find?_eq_none]
      intro e he
      simp only [decide_eq_true_eq]
      intro hc
      exact hany (by rw [List.any_eq_true]; exact ⟨e, he, by simp [hc]⟩)
    rw [find?_append_single_none m (k, v, i) k hnone, if_pos rfl]

/-- Assigning key k leaves the lookup of any other key unchanged. -/
theorem lookupKeyed_insert_other (m : List (JsVal × VNode × Nat)) (k : JsVal)
    (v : VNode) (i : Nat) (k2 : JsVal) (h : ¬ k2 = k) :
    lookupKeyed (insertKeyed m k v i) k2 = lookupKeyed m k2 := by
  unfold insertKeyed
  by_cases hany : m.any (fun e => e.1 = k) = true
  · rw [if_pos hany]
    unfold lookupKeyed
    rw [find?_mapped_other m k v i k2 h]
  · rw [if_neg hany]
    unfold lookupKeyed
    rw [find?_append_single_skip m (k, v, i) k2 (fun hc => h hc.symm)]

/-- Keys outside the processed sibling list are resolved by the
accumulator map. -/
theorem buildKeyedAux_lookup_notmem (l : List VNode) :
    ∀ (i : Nat) (m : List (JsVal × VNode × Nat)) (k : JsVal),
    k ∉ keysOf l →
    lookupKeyed (buildKeyedAux l i m) k = lookupKeyed m k := by
  induction l with
  | nil => intro i m k _; rfl
  | cons v rest ih =>
    intro i m k h
    by_cases hv : jsValNonNull v.key
    · have hrest : k ∉ keysOf rest := by
        intro hc
        exact h (by simp [keysOf, List.filterMap_cons, hv]; right; simpa [keysOf] using hc)
      have hkne : ¬ k = v.key := by
        intro hc
        subst hc
        exact h (by simp [keysOf, List.filterMap_cons, hv])
      simp only [buildKeyedAux, hv, if_true]
      rw [ih (i + 1) _ k hrest, lookupKeyed_insert_other _ _ _ _ _ hkne]
    · have hrest : k ∉ keysOf rest := by
        intro hc
        exact h (by simpa [keysOf, List.filterMap_cons, hv] using hc)
      simp only [buildKeyedAux, hv, if_false, Bool.false_eq_true]
      exact ih (i + 1) m k hrest

/-- With pairwise-distinct keys, the key map built from indices starting
at i sends the key of the child at offset j to that child and the
absolute index i + j. -/
theorem buildKeyedAux_lookup (l : List VNode) :
    ∀ (i : Nat) (m : List (JsVal × VNode × Nat)) (j : Nat) (cj : VNode),
    (keysOf l).Nodup →
    l.get? j = some cj → jsValNonNull cj.key = true →
    lookupKeyed (buildKeyedAux l i m) cj.key = some (cj, i + j) := by
  induction l with
  | nil =>
    intro i m j cj _ hget _
    simp at hget
  | cons v rest ih =>
    intro i m j cj hnodup hget hkeyed
    cases j with
    | zero =>
      simp only [List.get?] at hget
      injection hget with hget
      subst hget
      have hnotin : v.key ∉ keysOf rest := by
        rw [show keysOf (v :: rest) = v.key :: keysOf rest by
          simp [keysOf, List.filterMap_cons, hkeyed]] at hnodup
        exact (List.nodup_cons.mp hnodup).1
      simp only [buildKeyedAux, hkeyed, if_true]
      rw [buildKeyedAux_lookup_notmem rest (i + 1) _ _ hnotin, lookupKeyed_insert_self]
      simp
    | succ j2 =>
      simp only [List.get?] at hget
      have hnodup2 : (keysOf rest).Nodup := by
        by_cases hv : jsValNonNull v.key
        · rw [show keysOf (v :: rest) = v.key :: keysOf rest by
            simp [keysOf, List.filterMap_cons, hv]] at hnodup
          exact (List.nodup_cons.mp hnodup).2
        · rw [show keysOf (v :: rest) = keysOf rest by
            simp [keysOf, List.filterMap_cons, hv]] at hnodup
          exact hnodup
      have harith : i + 1 + j2 = i + (j2 + 1) := by omega
      by_cases hv : jsValNonNull v.key
      · simp only [buildKeyedAux, hv, if_true]
        rw [ih (i + 1) _ j2 cj hnodup2 hget hkeyed, harith]
      · simp only [buildKeyedAux, hv, if_false, Bool.false_eq_true]
        rw [ih (i + 1) m j2 cj hnodup2 hget hkeyed, harith]

/-- Entries of the overwrite-insert carry the inserted key or come from
the original map. -/
theorem insertKeyed_keys (m : List (JsVal × VNode × Nat)) (k : JsVal) (v : VNode)
    (i : Nat) : ∀ e ∈ insertKeyed m k v i, e.1 = k ∨ e ∈ m := by
  intro e he
  unfold insertKeyed at he
  by_cases hany : m.any (fun e => e.1 = k) = true
  · rw [if_pos hany] at he
    obtain ⟨e0, he0, heq⟩ := List.mem_map.mp he
    by_cases h0 : e0.1 = k
    · rw [if_pos h0] at heq
      left
      rw [← heq]
    · rw [if_neg h0] at heq
      right
      rw [← heq]
      exact he0
  · rw [if_neg hany] at he
    rcases List.mem_append.mp he with h | h
    · exact Or.inr h
    · left
      rw [List.mem_singleton.mp h]

/-- Every entry of the built key map carries the key of some keyed
child of the sibling list. -/
theorem buildKeyedAux_keys (l : List VNode) :
    ∀ (i : Nat) (m : List (JsVal × VNode × Nat)) (e : JsVal × VNode × Nat),
    e ∈ buildKeyedAux l i m → e.1 ∈ keysOf l ∨ e ∈ m := by
  induction l with
  | nil =>
    intro i m e he
    exact Or.inr he
  | cons v rest ih =>
    intro i m e he
    simp only [buildKeyedAux] at he
    by_cases hv : jsValNonNull v.key
    · rw [if_pos hv] at he
      rcases ih (i + 1) _ e he with h | h
      · left
        simp only [keysOf, List.filterMap_cons, hv, if_true]
        exact List.mem_cons_of_mem _ (by simpa [keysOf] using h)
      · rcases insertKeyed_keys m v.key v i e h with h2 | h2
        · left
          simp only [keysOf, List.filterMap_cons, hv, if_true]
          rw [h2]
          exact List.mem_cons_self _ _
        · exact Or.inr h2
    · rw [if_neg hv] at he
      rcases ih (i + 1) m e he with h | h
      · left
        simpa [keysOf, List.filterMap_cons, hv] using h
      · exact Or.inr h

/-- The removal pass removes nothing when every old key is present among
the new keys. -/
theorem removePass_all_present (t : Dom) (m : List (JsVal × VNode × Nat))
    (newKeys : List JsVal) (h : ∀ e ∈ m, e.1 ∈ newKeys) :
    removePass t m newKeys = some (t, []) := by
  induction m with
  | nil => rfl
  | cons e rest ih =>
    obtain ⟨k, v, idx⟩ := e
    have hk : k ∈ newKeys := h (k, v, idx) (List.mem_cons_self _ _)
    have hany : newKeys.any (fun k2 => k2 = k) = true := by
      rw [List.any_eq_true]
      exact ⟨k, hk, by simp⟩
    simp only [removePass, hany, if_true]
    exact ih (fun e2 he2 => h e2 (by simp [he2]))

/-- Every descriptor has positive size. -/
theorem vnode_sizeOf_pos (v : VNode) : 1 ≤ sizeOf v := by
  cases v with
  | mk t p k vs => simp [VNode.mk.sizeOf_spec]; omega

/-- The children of a descriptor are more than one size unit smaller
than the descriptor. -/
theorem vnode_sizeOf_lower (t : String) (p : Obj) (k : JsVal) (vs : List VNode) :
    sizeOf vs + 2 ≤ sizeOf (VNode.mk t p k vs) := by
  have hp := list_sizeOf_pos p
  simp only [VNode.mk.sizeOf_spec]
  omega

/-- Statement at fuel f: diffing a descriptor against itself at an
agreeing slot is the identity with an empty mutation trace. -/
def UpdSame (f : Nat) : Prop :=
  ∀ (v : VNode) (parent target : Dom) (idx c : Nat),
    sizeOf v ≤ f →
    Agrees target v → NDK v →
    parent.children.get? idx = some target →
    updateDOM f parent (some v) (some v) idx c = some (parent, c, [])

/-- Statement at fuel f: the positional child walk over an unchanged
sibling list is the identity with an empty trace. -/
def KidsSame (f : Nat) : Prop :=
  ∀ (vs : List VNode) (target : Dom) (i r c : Nat),
    i + r = vs.length →
    sizeOf (vs.drop i) ≤ f →
    ChildrenAgree target vs →
    (∀ v ∈ vs, NDK v) →
    updateChildren f target vs vs i r c = some (target, c, [])

/-- Statement at fuel f: the keyed walk over an unchanged sibling list
with distinct keys is the identity with an empty trace, collecting
exactly the keys of the remaining suffix. -/
def LoopSame (f : Nat) : Prop :=
  ∀ (vs : List VNode) (target : Dom) (j lastIndex : Nat) (newKeys : List JsVal) (c : Nat),
    sizeOf (vs.drop j) ≤ f →
    lastIndex ≤ j →
    (keysOf vs).Nodup →
    ChildrenAgree target vs →
    (∀ v ∈ vs, NDK v) →
    reconcileLoop f target vs (buildKeyed vs) (vs.drop j) j lastIndex newKeys c
      = some (target, c, [], newKeys ++ keysOf (vs.drop j))

/-- Statement at fuel f: full keyed reconciliation of an unchanged
sibling list with distinct keys is the identity with an empty trace. -/
def RecSame (f : Nat) : Prop :=
  ∀ (vs : List VNode) (target : Dom) (c : Nat),
    1 + sizeOf vs ≤ f →
    (keysOf vs).Nodup →
    ChildrenAgree target vs →
    (∀ v ∈ vs, NDK v) →
    reconcileChildren f target vs vs c = some (target, c, [])

/-- The master lemma: at every fuel, all four same-tree statements
hold. -/
theorem sameSame (f : Nat) : UpdSame f ∧ KidsSame f ∧ LoopSame f ∧ RecSame f := by
  induction f with
  | zero =>
    refine ⟨?_, ?_, ?_, ?_⟩
    · intro v _ _ _ _ hsz _ _ _
      exact absurd hsz (by have := vnode_sizeOf_pos v; omega)
    · intro vs _ i _ _ _ hsz _ _
      exact absurd hsz (by have := list_sizeOf_pos (vs.drop i); omega)
    · intro vs _ j _ _ _ hsz _ _ _ _
      exact absurd hsz (by have := list_sizeOf_pos (vs.drop j); omega)
    · intro vs _ _ hsz _ _ _
      exact absurd hsz (by omega)
  | succ f ih =>
    obtain ⟨ihU, ihK, ihL, ihR⟩ := ih
    have hU : UpdSame (f + 1) := by
      intro v parent target idx c hsz hag hndk hget
      obtain ⟨t, p, k, vs⟩ := v
      have hvs2 : sizeOf vs + 2 ≤ sizeOf (VNode.mk t p k vs) :=
        vnode_sizeOf_lower t p k vs
      simp only [updateDOM, VNode.vtype, VNode.props, VNode.children, ne_eq,
        not_true_eq_false, if_false, Bool.false_eq_true]
      by_cases ht : t = "TEXT_ELEMENT"
      · rw [if_pos ht]
      · rw [if_neg ht, hget]
        simp only [Option.bind_eq_bind, Option.some_bind]
        obtain ⟨hkeys, hchildNDK⟩ : (keysOf vs).Nodup ∧ ∀ v2 ∈ vs, NDK v2 := by
          cases hndk with
          | mk _ _ _ _ hkeys hchild => exact ⟨hkeys, hchild⟩
        have hca : ChildrenAgree target vs := by
          have := hag.children_agree
          simpa [VNode.children] using this
        by_cases hkey : vs.any (fun ch => jsValNonNull ch.key) = true
        · rw [if_pos (by rw [hkey]; rfl)]
          rw [ihR vs target c (by omega) hkeys hca hchildNDK]
          simp only [Option.some_bind]
          rw [updateDOMProperties_same, list_set_self _ _ _ hget, dom_withChildren_self]
          rfl
        · rw [if_neg (fun hc => hkey (by simpa using hc))]
          rw [Nat.max_self]
          rw [ihK vs target 0 vs.length c (by omega)
            (by rw [List.drop_zero]; omega) hca hchildNDK]
          simp only [Option.some_bind]
          rw [updateDOMProperties_same, list_set_self _ _ _ hget, dom_withChildren_self]
          rfl
    have hK : KidsSame (f + 1) := by
      intro vs target i r c hir hsz hca hndk
      cases r with
      | zero => rfl
      | succ r2 =>
        have hi : i < vs.length := by omega
        have hdrop := List.drop_eq_getElem_cons hi
        rw [hdrop] at hsz
        simp only [List.cons.sizeOf_spec] at hsz
        have hd1 := list_sizeOf_pos (vs.drop (i + 1))
        have hv1 := vnode_sizeOf_pos vs[i]
        have hit : i < target.children.length := by rw [hca.1]; omega
        have hgetT : target.children.get? i = some (target.children.get ⟨i, hit⟩) :=
          List.get?_eq_get hit
        have hagT : Agrees (target.children.get ⟨i, hit⟩) vs[i] := by
          have := hca.2 i hit hi
          simpa [List.get_eq_getElem] using this
        simp only [updateChildren]
        rw [List.getElem?_eq_getElem hi]
        rw [ihU vs[i] target (target.children.get ⟨i, hit⟩) i c (by omega) hagT
          (hndk _ (vs.getElem_mem hi)) hgetT]
        simp only [Option.bind_eq_bind, Option.some_bind]
        rw [ihK vs target (i + 1) r2 c (by omega) (by omega) hca hndk]
        rfl
    have hL : LoopSame (f + 1) := by
      intro vs target j lastIndex newKeys c hsz hli hnodup hca hndk
      by_cases hj : j < vs.length
      · have hdrop := List.drop_eq_getElem_cons hj
        rw [hdrop] at hsz ⊢
        simp only [List.cons.sizeOf_spec] at hsz
        have hd1 := list_sizeOf_pos (vs.drop (j + 1))
        have hv1 := vnode_sizeOf_pos vs[j]
        have hjt : j < target.children.length := by rw [hca.1]; omega
        have hgetT : target.children.get? j = some (target.children.get ⟨j, hjt⟩) :=
          List.get?_eq_get hjt
        have hagT : Agrees (target.children.get ⟨j, hjt⟩) vs[j] := by
          have := hca.2 j hjt hj
          simpa [List.get_eq_getElem] using this
        have hndkj : NDK vs[j] := hndk _ (vs.getElem_mem hj)
        by_cases hk : jsValNonNull (vs[j]).key = true
        · have hlook : lookupKeyed (buildKeyed vs) (vs[j]).key = some (vs[j], j) := by
            have := buildKeyedAux_lookup vs 0 [] j vs[j] hnodup
              (by rw [List.get?_eq_getElem?, List.getElem?_eq_getElem hj]) hk
            simpa [buildKeyed] using this
          simp only [reconcileLoop]
          rw [if_neg (by simp [hk])]
          rw [hlook]
          dsimp only
          rw [ihU vs[j] target (target.children.get ⟨j, hjt⟩) j c (by omega) hagT hndkj hgetT]
          simp only [Option.bind_eq_bind, Option.some_bind]
          rw [if_neg (by omega : ¬ j < lastIndex)]
          rw [ihL vs target (j + 1) j (newKeys ++ [(vs[j]).key]) c (by omega)
            (by omega) hnodup hca hndk]
          simp only [Option.some_bind, List.nil_append]
          have hkeq : keysOf (List.drop j vs) = (vs[j]).key :: keysOf (List.drop (j + 1) vs) := by
            rw [hdrop]
            simp only [keysOf, List.filterMap_cons, hk, if_true]
          simp [hkeq]
        · simp only [reconcileLoop]
          rw [if_pos (by simpa using hk)]
          rw [List.getElem?_eq_getElem hj]
          rw [ihU vs[j] target (target.children.get ⟨j, hjt⟩) j c (by omega) hagT hndkj hgetT]
          simp only [Option.bind_eq_bind, Option.some_bind]
          rw [ihL vs target (j + 1) lastIndex newKeys c (by omega) (by omega) hnodup hca hndk]
          simp only [Option.some_bind, List.nil_append]
          have hkeq : keysOf (List.drop j vs) = keysOf (List.drop (j + 1) vs) := by
            rw [hdrop]
            simp only [keysOf, List.filterMap_cons, hk, Bool.false_eq_true, if_false]
          simp [hkeq]
      · have hdrop : vs.drop j = [] := List.drop_eq_nil_of_le (by omega)
        rw [hdrop]
        simp [reconcileLoop, keysOf]
    have hR : RecSame (f + 1) := by
      intro vs target c hsz hnodup hca hndk
      simp only [reconcileChildren]
      have hloop := ihL vs target 0 0 [] c (by rw [List.drop_zero]; omega)
        (le_refl 0) hnodup hca hndk
      rw [List.drop_zero] at hloop
      rw [hloop]
      simp only [Option.bind_eq_bind, Option.some_bind, List.nil_append]
      rw [removePass_all_present target (buildKeyed vs) (keysOf vs) (by
        intro e he
        rcases buildKeyedAux_keys vs 0 [] e (by simpa [buildKeyed] using he) with h | h
        · exact h
        · simp at h)]
      rfl
    exact ⟨hU, hK, hL, hR⟩

/-- Claim C7 (amended): re-render idempotence holds for descriptor trees
whose sibling lists carry pairwise-distinct keys.  For a tree already
materialized in a container (the host subtree agrees structurally with
the descriptor and is remembered as the previous tree), rendering the
identical descriptor tree again succeeds and issues an empty host
mutation trace — no attribute, listener, style or text writes and no
insertions, moves or removals — and leaves the host tree and identity
counter untouched.  Without the distinct-keys hypothesis the statement
is false (see the duplicate-key counterexample). -/
theorem c7_rerender_identical_tree_no_mutations (f : Nat) (v : VNode)
    (cid : Nat) (target : Dom) (c : Nat)
    (hsz : sizeOf v ≤ f) (hag : Agrees target v) (hndk : NDK v) :
    render f v { dom := Dom.mk cid [target], current := some v } c
      = some ({ dom := Dom.mk cid [target], current := some v }, c, []) := by
  have h := (sameSame f).1 v (Dom.mk cid [target]) target 0 c hsz hag hndk rfl
  simp only [render]
  rw [h]
  rfl

/-- A childless host node agrees with any childless descriptor. -/
theorem agrees_leaf (i : Nat) (t : String) (p : Obj) (k : JsVal) :
    Agrees (Dom.mk i []) (VNode.mk t p k []) :=
  Agrees.mk i [] t p k [] rfl (fun j h1 _ => absurd h1 (by simp))

/-- A childless descriptor has no duplicate keys. -/
theorem ndk_leaf (t : String) (p : Obj) (k : JsVal) : NDK (VNode.mk t p k []) :=
  NDK.mk t p k [] (by simp [keysOf]) (fun v hv => absurd hv (by simp))

/-- Claim C7 witness: a concrete materialized tree — a root div holding
two keyed leaf children with distinct keys 1 and 2 — satisfies the
hypotheses, and re-rendering it issues no mutation. -/
theorem c7_witness :
    sizeOf (VNode.mk "div" [] (JsVal.prim Prim.undef) [c1Child 1, c1Child 2]) ≤ 100000
      ∧ Agrees (Dom.mk 0 [Dom.mk 1 [], Dom.mk 2 []])
          (VNode.mk "div" [] (JsVal.prim Prim.undef) [c1Child 1, c1Child 2])
      ∧ NDK (VNode.mk "div" [] (JsVal.prim Prim.undef) [c1Child 1, c1Child 2])
      ∧ render 100000 (VNode.mk "div" [] (JsVal.prim Prim.undef) [c1Child 1, c1Child 2])
          { dom := Dom.mk 100 [Dom.mk 0 [Dom.mk 1 [], Dom.mk 2 []]],
            current := some (VNode.mk "div" [] (JsVal.prim Prim.undef) [c1Child 1, c1Child 2]) }
          7
        = some ({ dom := Dom.mk 100 [Dom.mk 0 [Dom.mk 1 [], Dom.mk 2 []]],
                  current := some (VNode.mk "div" [] (JsVal.prim Prim.undef)
                    [c1Child 1, c1Child 2]) }, 7, []) := by
  have hsz : sizeOf (VNode.mk "div" [] (JsVal.prim Prim.undef) [c1Child 1, c1Child 2]) ≤ 100000 := by
    decide
  have hag : Agrees (Dom.mk 0 [Dom.mk 1 [], Dom.mk 2 []])
      (VNode.mk "div" [] (JsVal.prim Prim.undef) [c1Child 1, c1Child 2]) := by
    refine Agrees.mk 0 [Dom.mk 1 [], Dom.mk 2 []] "div" [] (JsVal.prim Prim.undef)
      [c1Child 1, c1Child 2] rfl ?_
    intro j h1 h2
    match j, h1, h2 with
    | 0, _, _ => exact agrees_leaf 1 "div" [] (JsVal.prim (Prim.num 1))
    | 1, _, _ => exact agrees_leaf 2 "div" [] (JsVal.prim (Prim.num 2))
  have hndk : NDK (VNode.mk "div" [] (JsVal.prim Prim.undef) [c1Child 1, c1Child 2]) := by
    refine NDK.mk "div" [] (JsVal.prim Prim.undef) [c1Child 1, c1Child 2] ?_ ?_
    · simp [keysOf, c1Child, List.filterMap_cons, jsValNonNull, VNode.key]
    · intro v hv
      rcases List.mem_cons.mp hv with h | h
      · rw [h]
        exact ndk_leaf _ _ _
      · rw [List.mem_singleton.mp h]
        exact ndk_leaf _ _ _
  exact ⟨hsz, hag, hndk,
    c7_rerender_identical_tree_no_mutations 100000 _ 100 _ 7 hsz hag hndk⟩

/-- The tree with duplicate sibling keys [1, 2, 1]. -/
def c7DupTree : VNode :=
  VNode.mk "div" [] (JsVal.prim Prim.undef) [c1Child 1, c1Child 2, c1Child 1]

/-- That tree materialized in a container as host nodes 1, 2, 3 under
root 0, and remembered as the previous tree. -/
def c7DupContainer : Container :=
  { dom := Dom.mk 100 [Dom.mk 0 [Dom.mk 1 [], Dom.mk 2 [], Dom.mk 3 []]],
    current := some c7DupTree }

set_option maxHeartbeats 2000000 in
/-- Claim C7 (counterexample): re-render idempotence fails for a
descriptor tree with duplicate sibling keys.  The key map records the
last child for key 1, so the first new child with key 1 matches old
index 2 and sets lastIndex to 2; the child with key 2 then matches old
index 1 < 2, and the code issues the host-adapter call
insertBefore(childNodes[1], childNodes[2]) — a mutation — even though
the tree is unchanged (the move lands the node back in place). -/
theorem c7_cex_duplicate_keys_rerender_mutates :
    render 20 c7DupTree c7DupContainer 5000
      = some ({ dom := Dom.mk 100 [Dom.mk 0 [Dom.mk 1 [], Dom.mk 2 [], Dom.mk 3 []]],
                current := some c7DupTree }, 5000,
          [Mutation.insertBefore 0 2 3])
      ∧ [Mutation.insertBefore 0 2 3] ≠ ([] : List Mutation) :=
  ⟨rfl, by decide⟩
